import Mathlib

/-!
Verification of the shader_io repository (src/core.py) against its
natural-language specification.

The Python source is shallowly embedded: pure helpers become Lean
functions, host (Maya `cmds`) calls become oracle fields of a `Scene`
structure, Python `None` returns become `Option`, and code paths that
raise (`TypeError`/`IndexError`/`KeyError`) are modelled in `Except`.
Python mutable-list semantics (in-place element assignment located via
`list.index`) are modelled explicitly where the source relies on them.
-/

/-! ## Python values (arguments of `cmds.getAttr` results and `setAttr`) -/

/-- A Python value as used by `core.py`: numbers, strings, booleans,
`None`, lists and tuples.  Attribute values returned by `cmds.getAttr`
are of this shape. -/
inductive PyVal where
  | numv (n : Int)
  | strv (s : String)
  | boolv (b : Bool)
  | nonev
  | listv (xs : List PyVal)
  | tuplev (xs : List PyVal)
deriving Repr

mutual

/-- Python `==` on `PyVal` (structural equality, as Python compares
numbers, strings, lists and tuples of them). -/
def pyValEq : PyVal → PyVal → Bool
  | .numv a, .numv b => a == b
  | .strv a, .strv b => a == b
  | .boolv a, .boolv b => a == b
  | .nonev, .nonev => true
  | .listv a, .listv b => pyValListEq a b
  | .tuplev a, .tuplev b => pyValListEq a b
  | _, _ => false

/-- Elementwise Python `==` on lists of `PyVal`. -/
def pyValListEq : List PyVal → List PyVal → Bool
  | [], [] => true
  | a :: as', b :: bs' => pyValEq a b && pyValListEq as' bs'
  | _, _ => false

end

/-- Python truthiness of a `PyVal` (used by `any(...)` in
`build_shader_dict`, line 302). -/
def pyTruthy : PyVal → Bool
  | .numv n => n != 0
  | .strv s => s != ""
  | .boolv b => b
  | .nonev => false
  | .listv xs => !xs.isEmpty
  | .tuplev xs => !xs.isEmpty

/-- Whether a `PyVal` is a sequence (a Python `list` or `tuple`),
i.e. `isinstance(each, (tuple, list))` from `flatten_list`. -/
def isSeqVal : PyVal → Bool
  | .listv _ => true
  | .tuplev _ => true
  | _ => false

/-! ## flatten_list (src/core.py lines 342-356) -/

/-- One iteration of the loop body of `flatten_list`: lists and tuples
are spliced by `new_list.extend(each)`, anything else is appended. -/
def flattenStep (acc : List PyVal) (each : PyVal) : List PyVal :=
  match each with
  | .listv xs => acc ++ xs
  | .tuplev xs => acc ++ xs
  | v => acc ++ [v]

/-- `flatten_list` from src/core.py: starts from `new_list = []` and
folds the loop body over the input. -/
def flatten_list (matrix : List PyVal) : List PyVal :=
  matrix.foldl flattenStep []

/-- The elements contributed to the output of `flatten_list` by a
single input element: a list or tuple contributes its members, any
other value contributes itself. -/
def expandElem : PyVal → List PyVal
  | .listv xs => xs
  | .tuplev xs => xs
  | v => [v]

theorem flattenStep_eq (acc : List PyVal) (e : PyVal) :
    flattenStep acc e = acc ++ expandElem e := by
  cases e <;> rfl

theorem flatten_list_aux (l : List PyVal) (acc : List PyVal) :
    l.foldl flattenStep acc = acc ++ (l.map expandElem).flatten := by
  induction l generalizing acc with
  | nil => simp
  | cons e t ih =>
      simp only [List.foldl_cons, List.map_cons, List.flatten_cons,
        flattenStep_eq, ih, List.append_assoc]

/-- `flatten_list` splices exactly one level of nesting, in order. -/
theorem flatten_list_eq_flatten (l : List PyVal) :
    flatten_list l = (l.map expandElem).flatten := by
  simpa using flatten_list_aux l []

/-! ## Python `str.replace` (used by the import rename rewrites) -/

/-- Fuel-driven core of Python `str.replace`: scans left to right,
replacing each non-overlapping occurrence of `old` by `new`.  The fuel
is an upper bound on the number of characters still to scan, so the
definition is structural (and hence kernel-computable). -/
def pyReplaceAux (old new : List Char) : Nat → List Char → List Char
  | _, [] => []
  | 0, s => s
  | fuel + 1, c :: rest =>
      if old ≠ [] ∧ old.isPrefixOf (c :: rest) then
        new ++ pyReplaceAux old new fuel ((c :: rest).drop old.length)
      else
        c :: pyReplaceAux old new fuel rest

/-- Python `s.replace(old, new)` on character lists. -/
def pyReplace (old new s : List Char) : List Char :=
  pyReplaceAux old new s.length s

/-- Python `s.replace(old, new)` on strings. -/
def pyReplaceS (s old new : String) : String :=
  String.mk (pyReplace old.data new.data s.data)

theorem pyReplaceAux_fuelIrrel (old new : List Char) :
    ∀ f₁ : Nat, ∀ s : List Char, ∀ f₂ : Nat, s.length ≤ f₁ → s.length ≤ f₂ →
      pyReplaceAux old new f₁ s = pyReplaceAux old new f₂ s := by
  intro f₁
  induction f₁ with
  | zero =>
      intro s f₂ h₁ _
      have hs : s = [] := List.length_eq_zero.mp (Nat.le_zero.mp h₁)
      subst hs
      cases f₂ <;> rfl
  | succ f ih =>
      intro s f₂ h₁ h₂
      cases s with
      | nil => cases f₂ <;> rfl
      | cons c rest =>
          have hlen : rest.length + 1 ≤ f₂ := by simpa using h₂
          obtain ⟨f₂', rfl⟩ : ∃ k, f₂ = k + 1 := by
            cases f₂ with
            | zero => omega
            | succ k => exact ⟨k, rfl⟩
          simp only [pyReplaceAux]
          by_cases hc : old ≠ [] ∧ old.isPrefixOf (c :: rest)
          · simp only [if_pos hc]
            have hop : 0 < old.length := List.length_pos.mpr hc.1
            have hd : ((c :: rest).drop old.length).length ≤ f := by
              simp only [List.length_drop, List.length_cons]
              simp only [List.length_cons] at h₁
              omega
            have hd₂ : ((c :: rest).drop old.length).length ≤ f₂' := by
              simp only [List.length_drop, List.length_cons]
              omega
            rw [ih ((c :: rest).drop old.length) f₂' hd hd₂]
          · simp only [if_neg hc]
            have hr : rest.length ≤ f := by
              simp only [List.length_cons] at h₁; omega
            have hr₂ : rest.length ≤ f₂' := by omega
            rw [ih rest f₂' hr hr₂]

theorem pyReplaceAux_eq_pyReplace (old new : List Char) (f : Nat)
    (s : List Char) (h : s.length ≤ f) :
    pyReplaceAux old new f s = pyReplace old new s := by
  exact pyReplaceAux_fuelIrrel old new f s s.length h (Nat.le_refl _)

theorem pyReplace_nil (old new : List Char) : pyReplace old new [] = [] := by
  cases old <;> rfl

/-- When `old` is a prefix of the input, `replace` emits `new` and
continues after the matched occurrence. -/
theorem pyReplace_match (old new t : List Char) (h : old ≠ []) :
    pyReplace old new (old ++ t) = new ++ pyReplace old new t := by
  obtain ⟨c, o, rfl⟩ : ∃ c o, old = c :: o := by
    cases old with
    | nil => exact absurd rfl h
    | cons c o => exact ⟨c, o, rfl⟩
  show pyReplaceAux (c :: o) new ((c :: o ++ t).length) (c :: (o ++ t)) = _
  have hlen : (c :: o ++ t).length = (o ++ t).length + 1 := by simp
  rw [hlen]
  simp only [pyReplaceAux]
  rw [if_pos ⟨h, by exact List.isPrefixOf_iff_prefix.mpr ⟨t, rfl⟩⟩]
  have hdrop : ((c :: (o ++ t)).drop (c :: o).length) = t := by
    show ((c :: o) ++ t).drop (c :: o).length = t
    exact List.drop_left _ _
  rw [hdrop]
  congr 1
  exact pyReplaceAux_eq_pyReplace _ _ _ _ (by simp)

/-- When `old` does not match at the head, `replace` keeps the head
character and continues. -/
theorem pyReplace_nomatch (old new : List Char) (c : Char) (r : List Char)
    (h : ¬ old.isPrefixOf (c :: r)) :
    pyReplace old new (c :: r) = c :: pyReplace old new r := by
  show pyReplaceAux old new ((c :: r).length) (c :: r) = _
  have hlen : (c :: r).length = r.length + 1 := by simp
  rw [hlen]
  simp only [pyReplaceAux]
  rw [if_neg (by intro hc; exact h hc.2)]
  rfl

/-! ## validate_file_path (src/core.py lines 34-43) -/

/-- Python `pat in s` on strings (substring test). -/
def pyInStr (pat s : String) : Bool :=
  infixAux pat.data s.data
where
  infixAux (pat : List Char) : List Char → Bool
    | [] => pat.isEmpty
    | c :: t => pat.isPrefixOf (c :: t) || infixAux pat t

/-- `validate_file_path` from src/core.py, with `os.path.exists`
abstracted as the oracle `pathExists`.  Returns the function's return
value (`none` models Python's implicit `None`) together with the list
of messages passed to `LOG.error`.  The function is total: no code
path raises. -/
def validate_file_path (pathExists : String → Bool) (file_path : String) :
    Option String × List String :=
  let return_path := file_path
  let return_path :=
    if pyInStr "\\" return_path then
      pyReplaceS (pyReplaceS return_path "\\" "/") "//" "/"
    else return_path
  if pathExists return_path then
    (some return_path, [])
  else
    (none, ["File path not found. \nUsed path: " ++ return_path])

/-- Modelled from the claim's words (C8): the normalization the claim
describes, applied unconditionally to every input path: replace
backslashes with forward slashes, then collapse doubled slashes. -/
def specNormalizePath (p : String) : String :=
  pyReplaceS (pyReplaceS p "\\" "/") "//" "/"

/-- The normalization `validate_file_path` actually performs: the
two replacements run only when the input contains a backslash. -/
def condNormalizePath (p : String) : String :=
  if pyInStr "\\" p then specNormalizePath p else p

/-! ## Claim C3: flattening of nested attribute values -/

/-- C3 counterexample: the claim says `flatten_list` applied to any
list whose elements are scalars, lists, or tuples returns a list with
no list or tuple elements; but `flatten_list` removes only one level
of nesting, so on the input `[[ [None] ]]` the output `[[None]]` still
contains a list element. -/
theorem C3_counterexample :
    flatten_list [.listv [.listv [.nonev]]] = [.listv [.nonev]] ∧
    (flatten_list [.listv [.listv [.nonev]]]).any isSeqVal = true :=
  ⟨rfl, rfl⟩

/-- C3 (amended): for every list whose list/tuple elements contain
only scalars (one level of nesting), `flatten_list` returns a list
containing no list or tuple elements, and that list is exactly the
in-order splice of the input's elements, so every scalar of the input
is preserved in order.  In general `flatten_list` removes exactly one
level of nesting. -/
theorem C3_flatten_one_level (l : List PyVal)
    (h : ∀ e ∈ l, ∀ x ∈ expandElem e, isSeqVal x = false) :
    (∀ y ∈ flatten_list l, isSeqVal y = false) ∧
    flatten_list l = (l.map expandElem).flatten := by
  refine ⟨?_, flatten_list_eq_flatten l⟩
  intro y hy
  rw [flatten_list_eq_flatten] at hy
  rcases List.mem_flatten.mp hy with ⟨a, ha, hya⟩
  rcases List.mem_map.mp ha with ⟨e, hel, rfl⟩
  exact h e hel y hya

/-- C3 witness: the amended theorem applied to a concrete one-level
nested input. -/
theorem C3_witness :
    (∀ e ∈ ([.numv 1, .listv [.nonev, .numv 2], .tuplev [.strv "x"]] : List PyVal),
       ∀ x ∈ expandElem e, isSeqVal x = false) ∧
    ((∀ y ∈ flatten_list [.numv 1, .listv [.nonev, .numv 2], .tuplev [.strv "x"]],
        isSeqVal y = false) ∧
     flatten_list [.numv 1, .listv [.nonev, .numv 2], .tuplev [.strv "x"]] =
       (([.numv 1, .listv [.nonev, .numv 2], .tuplev [.strv "x"]] : List PyVal).map
         expandElem).flatten) :=
  ⟨by decide, C3_flatten_one_level _ (by decide)⟩

/-! ## Claim C8: validate_file_path -/

/-- C8 counterexample: the claim says every input path is normalized
by replacing backslashes and collapsing doubled slashes before the
existence check, and that the normalized path is returned.  But the
code normalizes only when the input contains a backslash: on the
backslash-free input "a//b" it returns the path verbatim, not the
collapsed "a/b" the claim predicts. -/
theorem C8_counterexample :
    validate_file_path (fun _ => true) "a//b" = (some "a//b", []) ∧
    specNormalizePath "a//b" = "a/b" ∧ ("a//b" : String) ≠ "a/b" :=
  ⟨rfl, rfl, by decide⟩

/-- C8 (amended): `validate_file_path` never raises: it normalizes
the path (backslashes to forward slashes, then one pass collapsing
doubled slashes) only when the input contains a backslash, and
otherwise uses the input verbatim; if the resulting path exists it is
returned, and if not the function returns `None` and the
file-not-found condition is reported only through a logged error
message, never as a typed error. -/
theorem C8_validate_conditional (pathExists : String → Bool) (p : String) :
    validate_file_path pathExists p =
      (if pathExists (condNormalizePath p) then (some (condNormalizePath p), [])
       else (none, ["File path not found. \nUsed path: " ++ condNormalizePath p])) := by
  unfold validate_file_path condNormalizePath specNormalizePath
  by_cases h : pyInStr "\\" p <;> simp [h]

/-! ## The host scene (the `maya.cmds` surface used by core.py)

Each field is one `cmds` query used by the source, as a pure oracle.
Queries that Maya answers with `None` when empty are `Option`-valued;
Python code paths that subscript or iterate such a `None` are modelled
as `Except.error` (the uncaught `TypeError`/`IndexError`). -/

structure Scene where
  /-- `cmds.ls(selection=True)` -/
  selection : List String
  /-- `cmds.ls(x, showType=True)`: `[x, type]` for an existing node, `[]` otherwise -/
  lsShowType : String → List String
  /-- `cmds.ls(defaultNodes=True)` -/
  defaultNodes : List String
  /-- `cmds.objExists(x)` -/
  objExists : String → Bool
  /-- `cmds.listRelatives(x, shapes=True)` -/
  listRelativesShapes : String → Option (List String)
  /-- `cmds.listRelatives(x, parent=True)` -/
  listRelativesParent : String → Option (List String)
  /-- `cmds.listConnections(x, type='shadingEngine', destination=True)` -/
  listConnSE : String → Option (List String)
  /-- `cmds.listConnections(plug, destination=False)` (source node names) -/
  srcNodesOfPlug : String → Option (List String)
  /-- `cmds.listConnections(plug, plugs=True, destination=False)` (source plugs) -/
  srcPlugsOf : String → Option (List String)
  /-- `cmds.listConnections(node, connections=True, plugs=True, destination=False, shapes=False)` -/
  connSrcPairs : String → Option (List String)
  /-- `cmds.listConnections(node, connections=True, plugs=True, source=False, shapes=False)` -/
  connDestPairs : String → Option (List String)
  /-- `cmds.listConnections(plug, connections=True, plugs=True, source=True)` -/
  connAllPairsPlug : String → Option (List String)
  /-- `cmds.listConnections(plug, connections=True, plugs=True, source=True, destination=False)` -/
  connSrcPairsPlug : String → Option (List String)
  /-- `cmds.listConnections(node, source=True, destination=False, shapes=True)` -/
  srcNodesShapes : String → Option (List String)
  /-- selection produced by `cmds.hyperShade(objects=material)` and read back
  by `cmds.ls(selection=True)` (the "objects using this shader" query) -/
  hyperShadeObjects : String → List String
  /-- `cmds.listAttr(node, visible=True, write=True, output=False, inUse=True)` -/
  listAttrVWOU : String → Option (List String)
  /-- `cmds.attributeQuery(attr, node=n, exists=True)` -/
  attrExists : String → String → Bool
  /-- `cmds.attributeQuery(attr, node=n, listChildren=True)` -/
  attrChildren : String → String → Option (List String)
  /-- `cmds.getAttr(plug)` -/
  getAttrVal : String → PyVal
  /-- `cmds.getAttr(plug, type=True)` -/
  getAttrType : String → String

/-- Python truthiness of a Maya list result (`None` and `[]` are falsy). -/
def optTruthy (o : Option (List String)) : Bool :=
  match o with
  | none => false
  | some l => !l.isEmpty

/-! ## confirm_attr_order (src/core.py lines 312-325) -/

/-- `confirm_attr_order` from src/core.py.  The argument is the raw
result of a `cmds.listConnections(..., connections=True, plugs=True, ...)`
call (so `none` models Maya returning `None`, on which the Python
subscripts `[0]`/`[1]` would raise).  The two
`cmds.listConnections(attr_1, plugs=True, destination=False)` calls in
the body (lines 319-320) are the same pure oracle query, so they are
shared. -/
def confirm_attr_order (sc : Scene) (connected_attributes : Option (List String)) :
    Except String (List String) :=
  match connected_attributes with
  | none => .error "TypeError: NoneType object is not subscriptable"
  | some [] => .error "IndexError: list index out of range"
  | some [_] => .error "IndexError: list index out of range"
  | some (attr_1 :: attr_2 :: _) =>
      if optTruthy (sc.srcPlugsOf attr_1) then
        if attr_2 ∈ (sc.srcPlugsOf attr_1).getD [] then
          .ok [attr_2, attr_1]
        else
          .ok [attr_1, attr_2]
      else
        .ok [attr_1, attr_2]

/-! ## Claim C5: connection pair ordering -/

/-- C5: given two connected plugs `attr_1`, `attr_2` (the first two
entries of the query result), `confirm_attr_order` returns
`[attr_2, attr_1]` exactly when `attr_2` is listed by the host as a
source feeding `attr_1`, and `[attr_1, attr_2]` otherwise — so every
pair it produces for a record's connections list is ordered source
plug first, destination plug second. -/
theorem C5_confirm_attr_order (sc : Scene) (attr_1 attr_2 : String)
    (rest : List String) :
    confirm_attr_order sc (some (attr_1 :: attr_2 :: rest)) =
      .ok (if attr_2 ∈ (sc.srcPlugsOf attr_1).getD [] then
             [attr_2, attr_1]
           else
             [attr_1, attr_2]) := by
  cases h : sc.srcPlugsOf attr_1 with
  | none => simp [confirm_attr_order, optTruthy, h]
  | some l =>
      cases l with
      | nil => simp [confirm_attr_order, optTruthy, h]
      | cons x t =>
          by_cases hm : attr_2 ∈ x :: t <;>
            simp [confirm_attr_order, optTruthy, h, hm]

/-! ## The import-time connection rewrites (src/core.py lines 149-181)

When `import_shaders` creates a node under a name that differs from
the one recorded in the JSON (`shader_set` vs the shading group,
`material_name` vs the base material, `new_node` vs a network node),
it walks `shader_network["connections"]`, locating the pair to update
with `list.index` and the element to update with `each.index(attr)`,
and assigns `attr.replace(old, new)` in place.  The shading-group
branch (lines 155-157) performs the assignment twice: once through
`shaders_dict[...][index_num][num]` and once through `each[num]`; the
base-material and node branches (lines 165, 179) assign only through
`index_num`.  These loops are modelled below exactly, including the
`index`-based aliasing-free in-place updates. -/

/-- Python `s.startswith(pre)`. -/
def pyStartsWith (s pre : String) : Bool :=
  pre.data.isPrefixOf s.data

/-- Python `l.index(x)` (first index whose element equals `x`;
in the source it is only ever called with `x` present). -/
def pyIndex {α : Type} [DecidableEq α] : List α → α → Nat
  | [], _ => 0
  | y :: t, x => if y = x then 0 else pyIndex t x + 1

/-- The effect of the rewrite on one plug string: plugs beginning with
`old ++ "."` get `attr.replace(old, new)`, others are untouched. -/
def rewriteElem (old new attr : String) : String :=
  if pyStartsWith attr (old ++ ".") then pyReplaceS attr old new else attr

/-- The effect of the rewrite on one connection pair. -/
def rewriteEntry (old new : String) (e : List String) : List String :=
  e.map (rewriteElem old new)

/-- One iteration of the inner `for attr in each` loop
(lines 153-157 and 162-165/176-179 of src/core.py).  `index_num` is
the outer `connections.index(each)` result, `i` is the position of the
iterated pair object, `k` is the inner iteration position.  With
`sg = true` the shading-group variant is modelled (the extra in-place
`each[num] = ...` assignment of line 157). -/
def innerStepF (sg : Bool) (old new : String) (index_num i k : Nat)
    (st : List (List String)) : List (List String) :=
  let each := st.getD i []
  let attr := each.getD k ""
  let num := pyIndex each attr
  if pyStartsWith attr (old ++ ".") then
    let st1 := st.set index_num
      ((st.getD index_num []).set num (pyReplaceS attr old new))
    if sg then
      st1.set i ((st1.getD i []).set num (pyReplaceS attr old new))
    else
      st1
  else
    st

/-- The inner `for attr in each` loop over iteration positions `ks`. -/
def innerLoopF (sg : Bool) (old new : String) (index_num i : Nat) :
    List Nat → List (List String) → List (List String)
  | [], st => st
  | k :: ks, st =>
      innerLoopF sg old new index_num i ks (innerStepF sg old new index_num i k st)

/-- The outer `for each in shader_network["connections"]` loop over
iteration positions `is'`: each step re-reads the pair object at
position `i`, computes `index_num = connections.index(each)` on the
current state, and runs the inner loop. -/
def outerLoopF (sg : Bool) (old new : String) :
    List Nat → List (List String) → List (List String)
  | [], st => st
  | i :: is', st =>
      let each := st.getD i []
      let index_num := pyIndex st each
      outerLoopF sg old new is'
        (innerLoopF sg old new index_num i (List.range each.length) st)

/-- The whole rewrite pass of the base-material and node branches
(src/core.py lines 160-165 and 174-179). -/
def rewritePass (old new : String) (conns : List (List String)) :
    List (List String) :=
  outerLoopF false old new (List.range conns.length) conns

/-- The whole rewrite pass of the shading-group branch
(src/core.py lines 151-157). -/
def sgRewritePass (old new : String) (conns : List (List String)) :
    List (List String) :=
  outerLoopF true old new (List.range conns.length) conns

/-- The node-name part of a plug string: everything before the first
dot (Python `plug.split(".")[0]`). -/
def nodePrefixOf (s : String) : String :=
  String.mk (s.data.takeWhile (fun c => c != '.'))

theorem takeWhile_append_dot (p r : List Char) (hp : '.' ∉ p) :
    (p ++ '.' :: r).takeWhile (fun c => c != '.') = p := by
  induction p with
  | nil => simp [List.takeWhile]
  | cons a t ih =>
      have ha : a ≠ '.' := fun h => hp (h ▸ List.mem_cons_self a t)
      have ht : '.' ∉ t := fun h => hp (List.mem_cons_of_mem a h)
      simp only [List.cons_append, List.takeWhile]
      rw [show (a != '.') = true by simpa using ha]
      simp [ih ht]

theorem startsWith_dot_iff (old : String) (attr : String) :
    pyStartsWith attr (old ++ ".") = true ↔
      ∃ r, attr.data = old.data ++ '.' :: r := by
  unfold pyStartsWith
  rw [List.isPrefixOf_iff_prefix]
  constructor
  · intro h
    rcases h with ⟨u, hu⟩
    refine ⟨u, ?_⟩
    rw [← hu]
    simp [String.data_append]
  · rintro ⟨r, hr⟩
    refine ⟨r, ?_⟩
    rw [hr]
    simp [String.data_append]

theorem no_prefix_of_dot_head (old : List Char) (hne : old ≠ [])
    (hdot : '.' ∉ old) (r : List Char) :
    ¬ old.isPrefixOf ('.' :: r) = true := by
  obtain ⟨c, o, rfl⟩ : ∃ c o, old = c :: o := by
    cases old with
    | nil => exact absurd rfl hne
    | cons c o => exact ⟨c, o, rfl⟩
  have hc : c ≠ '.' := fun h => hdot (h ▸ List.mem_cons_self c o)
  simp [List.isPrefixOf, hc]

/-- The data of a guard-passing plug after `attr.replace(old, new)`:
the old-name prefix becomes `new`, the dot survives, and `replace`
continues on the attribute part. -/
theorem pyReplace_plug (old new : String) (hne : old.data ≠ [])
    (hdot : '.' ∉ old.data) (r : List Char) :
    pyReplace old.data new.data (old.data ++ '.' :: r) =
      new.data ++ '.' :: pyReplace old.data new.data r := by
  rw [pyReplace_match old.data new.data ('.' :: r) hne]
  rw [pyReplace_nomatch old.data new.data '.' r
    (no_prefix_of_dot_head old.data hne hdot r)]

theorem rewriteElem_guard_true (old new attr : String)
    (hne : old.data ≠ []) (hdot : '.' ∉ old.data)
    (hg : pyStartsWith attr (old ++ ".") = true) :
    ∃ r, (rewriteElem old new attr).data = new.data ++ '.' :: r := by
  rcases (startsWith_dot_iff old attr).mp hg with ⟨r, hr⟩
  refine ⟨pyReplace old.data new.data r, ?_⟩
  unfold rewriteElem
  rw [if_pos hg]
  show (pyReplace old.data new.data attr.data) = _
  rw [hr, pyReplace_plug old new hne hdot r]

theorem rewriteElem_guard_false (old new attr : String)
    (hg : pyStartsWith attr (old ++ ".") = false) :
    rewriteElem old new attr = attr := by
  unfold rewriteElem
  rw [hg]
  simp

theorem nodePrefixOf_of_dot_split (p : String) (r : List Char)
    (hdot : '.' ∉ p.data) (s : String) (hs : s.data = p.data ++ '.' :: r) :
    nodePrefixOf s = p := by
  unfold nodePrefixOf
  rw [hs, takeWhile_append_dot p.data r hdot]

theorem rewriteElem_prefix_new (old new attr : String)
    (hne : old.data ≠ []) (hdot : '.' ∉ old.data) (hnewdot : '.' ∉ new.data)
    (hg : pyStartsWith attr (old ++ ".") = true) :
    nodePrefixOf (rewriteElem old new attr) = new := by
  rcases rewriteElem_guard_true old new attr hne hdot hg with ⟨r, hr⟩
  exact nodePrefixOf_of_dot_split new r hnewdot _ hr

/-- After a successful rewrite the plug no longer carries the old
prefix (needed to show the `list.index` lookups find the intended
positions). -/
theorem rewriteElem_no_old_guard (old new attr : String)
    (hne : old.data ≠ []) (hdot : '.' ∉ old.data) (hnewdot : '.' ∉ new.data)
    (hone : old ≠ new) :
    pyStartsWith (rewriteElem old new attr) (old ++ ".") = false := by
  by_cases hg : pyStartsWith attr (old ++ ".") = true
  · rcases rewriteElem_guard_true old new attr hne hdot hg with ⟨r, hr⟩
    by_contra hbad
    have hbad' : pyStartsWith (rewriteElem old new attr) (old ++ ".") = true := by
      revert hbad
      cases pyStartsWith (rewriteElem old new attr) (old ++ ".") <;> simp
    rcases (startsWith_dot_iff old _).mp hbad' with ⟨u, hu⟩
    have h1 : nodePrefixOf (rewriteElem old new attr) = new :=
      nodePrefixOf_of_dot_split new r hnewdot _ hr
    have h2 : nodePrefixOf (rewriteElem old new attr) = old :=
      nodePrefixOf_of_dot_split old u hdot _ hu
    exact hone (h2 ▸ h1)
  · have hg' : pyStartsWith attr (old ++ ".") = false := by
      revert hg; cases pyStartsWith attr (old ++ ".") <;> simp
    rw [rewriteElem_guard_false old new attr hg']
    exact hg'

/-! ### List helpers for the in-place update model -/

theorem getD_append_len {α : Type} (P : List α) (x : α) (Q : List α) (d : α) :
    (P ++ x :: Q).getD P.length d = x := by
  induction P with
  | nil => rfl
  | cons a t ih => simpa using ih

theorem getD_append_lt {α : Type} (P R : List α) (d : α) (j : Nat)
    (hj : j < P.length) :
    (P ++ R).getD j d = P.getD j d := by
  induction P generalizing j with
  | nil => simp at hj
  | cons a t ih =>
      cases j with
      | zero => rfl
      | succ m =>
          have : m < t.length := by simpa using hj
          simpa using ih m this

theorem set_append_len {α : Type} (P : List α) (x : α) (Q : List α) (v : α) :
    (P ++ x :: Q).set P.length v = P ++ v :: Q := by
  induction P with
  | nil => rfl
  | cons a t ih => simp [List.set, ih]

theorem take_map_succ {α β : Type} (f : α → β) (e : List α) (k : Nat)
    (hk : k < e.length) (d : α) :
    (e.take (k + 1)).map f = (e.take k).map f ++ [f (e.getD k d)] := by
  induction e generalizing k with
  | nil => simp at hk
  | cons a t ih =>
      cases k with
      | zero => simp
      | succ m =>
          have : m < t.length := by simpa using hk
          simpa using ih m this

theorem drop_succ_getD {α : Type} (e : List α) (k : Nat) (hk : k < e.length)
    (d : α) :
    e.drop k = e.getD k d :: e.drop (k + 1) := by
  induction e generalizing k with
  | nil => simp at hk
  | cons a t ih =>
      cases k with
      | zero => rfl
      | succ m =>
          have : m < t.length := by simpa using hk
          simpa using ih m this

theorem pyIndex_spec {α : Type} [DecidableEq α] (l : List α) (x : α) (n : Nat)
    (d : α) (hn : n < l.length) (hx : l.getD n d = x)
    (hj : ∀ j, j < n → l.getD j d ≠ x) :
    pyIndex l x = n := by
  induction l generalizing n with
  | nil => simp at hn
  | cons y t ih =>
      cases n with
      | zero =>
          have : y = x := hx
          simp [pyIndex, this]
      | succ m =>
          have hy : y ≠ x := hj 0 (Nat.succ_pos m)
          have hm : m < t.length := by simpa using hn
          have hx' : t.getD m d = x := by simpa using hx
          have hj' : ∀ j, j < m → t.getD j d ≠ x := by
            intro j hjm
            have := hj (j + 1) (by omega)
            simpa using this
          simp [pyIndex, hy, ih m hm hx' hj']

theorem getD_map_lt {α β : Type} (f : α → β) (l : List α) (j : Nat)
    (hj : j < l.length) (d : β) (d' : α) :
    (l.map f).getD j d = f (l.getD j d') := by
  induction l generalizing j with
  | nil => simp at hj
  | cons a t ih =>
      cases j with
      | zero => rfl
      | succ m =>
          have : m < t.length := by simpa using hj
          simpa using ih m this

theorem getD_take_lt {α : Type} (l : List α) (k j : Nat) (hj : j < k)
    (hk : k ≤ l.length) (d : α) :
    (l.take k).getD j d = l.getD j d := by
  induction l generalizing j k with
  | nil => simp
  | cons a t ih =>
      cases k with
      | zero => omega
      | succ m =>
          cases j with
          | zero => rfl
          | succ n =>
              have h1 : n < m := by omega
              have h2 : m ≤ t.length := by simpa using hk
              simpa using ih m n h1 h2

theorem empty_guard_false (old : String) (hne : old.data ≠ []) :
    pyStartsWith "" (old ++ ".") = false := by
  unfold pyStartsWith
  obtain ⟨c, o, ho⟩ : ∃ c o, old.data = c :: o := by
    cases h : old.data with
    | nil => exact absurd h hne
    | cons c o => exact ⟨c, o, rfl⟩
  have : (old ++ ".").data = c :: (o ++ ['.']) := by
    rw [String.data_append, ho]
    rfl
  rw [this]
  rfl


theorem getD_mem_of_lt {α : Type} (l : List α) (k : Nat) (d : α)
    (hk : k < l.length) : l.getD k d ∈ l := by
  induction l generalizing k with
  | nil => simp at hk
  | cons a t ih =>
      cases k with
      | zero => exact List.mem_cons_self a t
      | succ m =>
          have : m < t.length := by simpa using hk
          exact List.mem_cons_of_mem a (ih m this)

theorem getD_default_of_le {α : Type} (l : List α) (k : Nat) (d : α)
    (hk : l.length ≤ k) : l.getD k d = d := by
  induction l generalizing k with
  | nil => cases k <;> rfl
  | cons a t ih =>
      cases k with
      | zero => simp at hk
      | succ m => simpa using ih m (by simpa using hk)

theorem if_guard_true {α : Type} (c : Bool) (h : c = true) (x y : α) :
    (if c = true then x else y) = x := by
  rw [h]
  simp

theorem if_guard_false {α : Type} (c : Bool) (h : c = false) (x y : α) :
    (if c = true then x else y) = y := by
  rw [h]
  simp

/-- If every plug of the pair object at position `i` lacks the old
prefix, the inner loop writes nothing. -/
theorem innerLoopF_noop (sg : Bool) (old new : String) (hne : old.data ≠ [])
    (idx i : Nat) (ks : List Nat) (st : List (List String))
    (h : ∀ s ∈ st.getD i [], pyStartsWith s (old ++ ".") = false) :
    innerLoopF sg old new idx i ks st = st := by
  induction ks with
  | nil => rfl
  | cons k t ih =>
      have hattr : pyStartsWith ((st.getD i []).getD k "") (old ++ ".") = false := by
        by_cases hk : k < (st.getD i []).length
        · exact h _ (getD_mem_of_lt _ k "" hk)
        · have hd : (st.getD i []).getD k "" = "" :=
            getD_default_of_le _ k "" (by omega)
          rw [hd]
          exact empty_guard_false old hne
      have hstep : innerStepF sg old new idx i k st = st := by
        simp only [innerStepF, hattr]
        simp
      calc innerLoopF sg old new idx i (k :: t) st
          = innerLoopF sg old new idx i t (innerStepF sg old new idx i k st) := rfl
        _ = innerLoopF sg old new idx i t st := by rw [hstep]
        _ = st := ih

/-- Single-pair correctness of the inner loop when the `index` lookup
resolves to the iterated pair itself: the pair ends up elementwise
rewritten.  `P` is the already-processed prefix of the connections
list, `Q` the untouched suffix, and the pair at position `P.length`
has its first `k` plugs already rewritten. -/
theorem innerLoopF_main (sg : Bool) (old new : String)
    (hne : old.data ≠ []) (hdot : '.' ∉ old.data) (hnewdot : '.' ∉ new.data)
    (hone : old ≠ new) (e : List String) (P Q : List (List String)) :
    ∀ m k, k + m = e.length →
      innerLoopF sg old new P.length P.length (List.range' k m)
        (P ++ ((e.take k).map (rewriteElem old new) ++ e.drop k) :: Q)
      = P ++ e.map (rewriteElem old new) :: Q := by
  intro m
  induction m with
  | zero =>
      intro k hk
      have hk' : k = e.length := by omega
      subst hk'
      simp [innerLoopF]
  | succ m ih =>
      intro k hk
      have hklt : k < e.length := by omega
      set rE := rewriteElem old new with hrE
      set mapped := (e.take k).map rE with hmapped
      have hmaplen : mapped.length = k := by
        rw [hmapped]
        simp [List.length_take]
        omega
      set a := e.getD k "" with ha
      have hdropk : e.drop k = a :: e.drop (k + 1) := drop_succ_getD e k hklt ""
      set cur := mapped ++ e.drop k with hcur
      have hcur2 : cur = mapped ++ a :: e.drop (k + 1) := by rw [hcur, hdropk]
      set st := P ++ cur :: Q with hst
      have heach : st.getD P.length [] = cur := by
        rw [hst]
        exact getD_append_len P cur Q []
      have hattr : cur.getD k "" = a := by
        have h0 := getD_append_len mapped a (e.drop (k + 1)) ""
        rw [hmaplen] at h0
        rw [hcur2]
        exact h0
      have hcurlen : cur.length = e.length := by
        rw [hcur]
        simp only [List.length_append, List.length_drop, hmaplen]
        omega
      have htake1 : (e.take (k + 1)).map rE = mapped ++ [rE a] := by
        rw [hmapped, ha]
        exact take_map_succ rE e k hklt ""
      rw [List.range'_succ]
      have hloopstep : innerLoopF sg old new P.length P.length
          (k :: List.range' (k + 1) m) st
          = innerLoopF sg old new P.length P.length (List.range' (k + 1) m)
              (innerStepF sg old new P.length P.length k st) := rfl
      rw [hloopstep]
      have hstep : innerStepF sg old new P.length P.length k st =
          P ++ ((e.take (k + 1)).map rE ++ e.drop (k + 1)) :: Q := by
        simp only [innerStepF]
        rw [heach, hattr]
        by_cases hg : pyStartsWith a (old ++ ".") = true
        · have hnum : pyIndex cur a = k := by
            apply pyIndex_spec cur a k ""
            · rw [hcurlen]
              exact hklt
            · exact hattr
            · intro j hj
              have hj1 : j < mapped.length := by
                rw [hmaplen]
                exact hj
              have hcg : cur.getD j "" = rE (e.getD j "") := by
                rw [hcur, getD_append_lt mapped (e.drop k) "" j hj1, hmapped]
                rw [getD_map_lt rE (e.take k) j
                  (by simp [List.length_take]; omega) "" ""]
                rw [getD_take_lt e k j hj (le_of_lt hklt) ""]
              rw [hcg]
              intro hbad
              have hfalse : pyStartsWith (rE (e.getD j "")) (old ++ ".") = false :=
                rewriteElem_no_old_guard old new _ hne hdot hnewdot hone
              rw [hbad, hg] at hfalse
              exact absurd hfalse (by simp)
          rw [if_guard_true _ hg, hnum]
          have hv : rE a = pyReplaceS a old new := by
            rw [hrE]
            unfold rewriteElem
            exact if_guard_true _ hg _ _
          have hsetcur : cur.set k (pyReplaceS a old new) =
              (e.take (k + 1)).map rE ++ e.drop (k + 1) := by
            have h1 := set_append_len mapped a (e.drop (k + 1)) (pyReplaceS a old new)
            rw [hmaplen] at h1
            rw [hcur2, h1, htake1, ← hv]
            simp
          have hsetst : st.set P.length (cur.set k (pyReplaceS a old new)) =
              P ++ ((e.take (k + 1)).map rE ++ e.drop (k + 1)) :: Q := by
            rw [hst, set_append_len, hsetcur]
          cases sg with
          | false =>
              rw [if_guard_false false rfl]
              exact hsetst
          | true =>
              rw [if_guard_true true rfl, hsetst]
              have hget2 : (P ++ ((e.take (k + 1)).map rE ++ e.drop (k + 1)) :: Q).getD
                  P.length [] = (e.take (k + 1)).map rE ++ e.drop (k + 1) :=
                getD_append_len _ _ _ _
              rw [hget2]
              have h3 : ((e.take (k + 1)).map rE ++ e.drop (k + 1)).set k
                  (pyReplaceS a old new) =
                  (e.take (k + 1)).map rE ++ e.drop (k + 1) := by
                rw [htake1]
                have h5 : mapped ++ [rE a] ++ e.drop (k + 1) =
                    mapped ++ rE a :: e.drop (k + 1) := by simp
                rw [h5]
                have h4 := set_append_len mapped (rE a) (e.drop (k + 1))
                  (pyReplaceS a old new)
                rw [hmaplen] at h4
                rw [h4, ← hv]
              rw [h3, set_append_len]
        · have hg' : pyStartsWith a (old ++ ".") = false := by
            revert hg
            cases pyStartsWith a (old ++ ".") <;> simp
          rw [if_guard_false _ hg']
          rw [hst, hcur2, htake1]
          have hre : rE a = a := rewriteElem_guard_false old new a hg'
          rw [hre]
          simp
      rw [hstep]
      exact ih (k + 1) (by omega)

theorem map_id_of_eq {α : Type} (f : α → α) (l : List α)
    (h : ∀ x ∈ l, f x = x) : l.map f = l := by
  induction l with
  | nil => rfl
  | cons a t ih =>
      rw [List.map_cons, h a (List.mem_cons_self a t),
        ih (fun x hx => h x (List.mem_cons_of_mem a hx))]

/-- Outer-loop correctness: starting with the first `i` pairs already
rewritten, the remaining iterations rewrite the rest, elementwise. -/
theorem outerLoopF_main (sg : Bool) (old new : String)
    (hne : old.data ≠ []) (hdot : '.' ∉ old.data) (hnewdot : '.' ∉ new.data)
    (hone : old ≠ new) (conns : List (List String)) :
    ∀ m i, i + m = conns.length →
      outerLoopF sg old new (List.range' i m)
        ((conns.take i).map (rewriteEntry old new) ++ conns.drop i)
      = conns.map (rewriteEntry old new) := by
  intro m
  induction m with
  | zero =>
      intro i hi
      have hi' : i = conns.length := by omega
      subst hi'
      simp [outerLoopF, List.range']
  | succ m ih =>
      intro i hi
      have hilt : i < conns.length := by omega
      set rEnt := rewriteEntry old new with hrEnt
      set mapped := (conns.take i).map rEnt with hmapped
      have hmaplen : mapped.length = i := by
        rw [hmapped]
        simp [List.length_take]
        omega
      set e := conns.getD i [] with he
      have hdropi : conns.drop i = e :: conns.drop (i + 1) :=
        drop_succ_getD conns i hilt []
      set st := mapped ++ conns.drop i with hst
      have hst2 : st = mapped ++ e :: conns.drop (i + 1) := by rw [hst, hdropi]
      have heach : st.getD i [] = e := by
        have h0 := getD_append_len mapped e (conns.drop (i + 1)) []
        rw [hmaplen] at h0
        rw [hst2]
        exact h0
      have hstlen : st.length = conns.length := by
        rw [hst]
        simp only [List.length_append, List.length_drop, hmaplen]
        omega
      have htake1 : (conns.take (i + 1)).map rEnt = mapped ++ [rEnt e] := by
        rw [hmapped, he]
        exact take_map_succ rEnt conns i hilt []
      rw [List.range'_succ]
      have hloopstep : outerLoopF sg old new (i :: List.range' (i + 1) m) st
          = outerLoopF sg old new (List.range' (i + 1) m)
              (innerLoopF sg old new (pyIndex st (st.getD i [])) i
                (List.range (st.getD i []).length) st) := rfl
      rw [hloopstep, heach]
      by_cases hany : e.any (fun s => pyStartsWith s (old ++ ".")) = true
      · have hidx : pyIndex st e = i := by
          apply pyIndex_spec st e i []
          · rw [hstlen]
            exact hilt
          · exact heach
          · intro j hj
            have hj1 : j < mapped.length := by
              rw [hmaplen]
              exact hj
            have hsg : st.getD j [] = rEnt (conns.getD j []) := by
              rw [hst, getD_append_lt mapped (conns.drop i) [] j hj1, hmapped]
              rw [getD_map_lt rEnt (conns.take i) j
                (by simp [List.length_take]; omega) [] []]
              rw [getD_take_lt conns i j hj (le_of_lt hilt) []]
            rw [hsg]
            intro hbad
            rcases List.any_eq_true.mp hany with ⟨s, hs, hgs⟩
            have hsmem : s ∈ rEnt (conns.getD j []) := by
              rw [hbad]
              exact hs
            rw [hrEnt] at hsmem
            unfold rewriteEntry at hsmem
            rcases List.mem_map.mp hsmem with ⟨y, _, hys⟩
            have hcontra : pyStartsWith s (old ++ ".") = false := by
              rw [← hys]
              exact rewriteElem_no_old_guard old new y hne hdot hnewdot hone
            rw [hgs] at hcontra
            exact absurd hcontra (by simp)
        rw [hidx, List.range_eq_range', hst2]
        have hinner := innerLoopF_main sg old new hne hdot hnewdot hone e
          mapped (conns.drop (i + 1)) e.length 0 (by omega)
        rw [hmaplen] at hinner
        simp only [List.take_zero, List.map_nil, List.nil_append,
          List.drop_zero] at hinner
        rw [hinner]
        have hnextst : mapped ++ e.map (rewriteElem old new) :: conns.drop (i + 1)
            = (conns.take (i + 1)).map rEnt ++ conns.drop (i + 1) := by
          rw [htake1]
          have hree : rEnt e = e.map (rewriteElem old new) := by
            rw [hrEnt]
            rfl
          rw [hree]
          simp
        rw [hnextst]
        exact ih (i + 1) (by omega)
      · have hany' : e.any (fun s => pyStartsWith s (old ++ ".")) = false := by
          revert hany
          cases e.any (fun s => pyStartsWith s (old ++ ".")) <;> simp
        have hall : ∀ s ∈ e, pyStartsWith s (old ++ ".") = false := by
          intro s hs
          cases hgs : pyStartsWith s (old ++ ".") with
          | false => rfl
          | true =>
              have hx : e.any (fun s => pyStartsWith s (old ++ ".")) = true :=
                List.any_eq_true.mpr ⟨s, hs, hgs⟩
              rw [hany'] at hx
              exact absurd hx (by simp)
        have hnoopinner : innerLoopF sg old new (pyIndex st e) i
            (List.range e.length) st = st := by
          apply innerLoopF_noop sg old new hne
          rw [heach]
          exact hall
        rw [hnoopinner]
        have hre : rEnt e = e := by
          rw [hrEnt]
          unfold rewriteEntry
          exact map_id_of_eq _ e (fun s hs =>
            rewriteElem_guard_false old new s (hall s hs))
        have hst3 : st = (conns.take (i + 1)).map rEnt ++ conns.drop (i + 1) := by
          rw [hst2, htake1, hre]
          simp
        rw [hst3]
        exact ih (i + 1) (by omega)

theorem rewritePass_eq_map (old new : String)
    (hne : old.data ≠ []) (hdot : '.' ∉ old.data) (hnewdot : '.' ∉ new.data)
    (hone : old ≠ new) (conns : List (List String)) :
    rewritePass old new conns = conns.map (rewriteEntry old new) := by
  unfold rewritePass
  rw [List.range_eq_range']
  have h := outerLoopF_main false old new hne hdot hnewdot hone conns
    conns.length 0 (by omega)
  simpa using h

theorem sgRewritePass_eq_map (old new : String)
    (hne : old.data ≠ []) (hdot : '.' ∉ old.data) (hnewdot : '.' ∉ new.data)
    (hone : old ≠ new) (conns : List (List String)) :
    sgRewritePass old new conns = conns.map (rewriteEntry old new) := by
  unfold sgRewritePass
  rw [List.range_eq_range']
  have h := outerLoopF_main true old new hne hdot hnewdot hone conns
    conns.length 0 (by omega)
  simpa using h

/-! ## Claim C1: name-collision rewriting during import -/

/-- C1: whenever a node created during import receives a name `new`
different from the recorded name `old` (a collision resolved by the
host; node names are nonempty and contain no dot), the rewrite loops
of `import_shaders` — the shading-group variant of lines 151-157
(`sgRewritePass`) and the base-material/node variant of lines 160-165
and 174-179 (`rewritePass`), both run before the `connectAttr` loop of
that network — rewrite the connections list elementwise: every plug
string that refers to `old` (it starts with `old ++ "."`) is replaced
by its `str.replace(old, new)` image, whose node-name prefix is `new`,
and every other plug string is left unchanged. -/
theorem C1_rename_rewrites_connections (old new : String)
    (hne : old.data ≠ []) (hdot : '.' ∉ old.data) (hnewdot : '.' ∉ new.data)
    (hone : old ≠ new) (conns : List (List String)) :
    rewritePass old new conns = conns.map (rewriteEntry old new) ∧
    sgRewritePass old new conns = conns.map (rewriteEntry old new) ∧
    (∀ attr : String, pyStartsWith attr (old ++ ".") = true →
        nodePrefixOf (rewriteElem old new attr) = new) ∧
    (∀ attr : String, pyStartsWith attr (old ++ ".") = false →
        rewriteElem old new attr = attr) :=
  ⟨rewritePass_eq_map old new hne hdot hnewdot hone conns,
   sgRewritePass_eq_map old new hne hdot hnewdot hone conns,
   fun attr hg => rewriteElem_prefix_new old new attr hne hdot hnewdot hg,
   fun attr hg => rewriteElem_guard_false old new attr hg⟩

/-- C1 witness: the theorem applied to a concrete rename `m` to `m2`
on a concrete connections list. -/
theorem C1_witness :
    (("m" : String).data ≠ [] ∧ '.' ∉ ("m" : String).data ∧
     '.' ∉ ("m2" : String).data ∧ ("m" : String) ≠ "m2") ∧
    (rewritePass "m" "m2" [["m.c", "sg.s"], ["x.y", "m.c"]] =
        [["m.c", "sg.s"], ["x.y", "m.c"]].map (rewriteEntry "m" "m2") ∧
     sgRewritePass "m" "m2" [["m.c", "sg.s"], ["x.y", "m.c"]] =
        [["m.c", "sg.s"], ["x.y", "m.c"]].map (rewriteEntry "m" "m2") ∧
     (∀ attr : String, pyStartsWith attr ("m" ++ ".") = true →
        nodePrefixOf (rewriteElem "m" "m2" attr) = "m2") ∧
     (∀ attr : String, pyStartsWith attr ("m" ++ ".") = false →
        rewriteElem "m" "m2" attr = attr)) :=
  ⟨⟨by decide, by decide, by decide, by decide⟩,
   C1_rename_rewrites_connections "m" "m2" (by decide) (by decide) (by decide)
     (by decide) [["m.c", "sg.s"], ["x.y", "m.c"]]⟩

/-! ## get_src_nodes (src/core.py lines 197-224)

The Python function recurses without bound (a cyclic graph would hit
the interpreter's recursion limit), so the embedding takes a fuel
parameter; exhausted fuel models `RecursionError`.  All monadic
plumbing is spelled out with `exBind` to keep the definitions
kernel-computable. -/

/-- Bind on `Except String`, written explicitly. -/
def exBind {α β : Type} (x : Except String α) (f : α → Except String β) :
    Except String β :=
  match x with
  | .error e => .error e
  | .ok a => f a

/-- `cmds.ls(x, showType=True)[-1]` (raises `IndexError` on an empty
result). -/
def lastOfShowType (sc : Scene) (x : String) : Except String String :=
  match (sc.lsShowType x).getLast? with
  | none => .error "IndexError: list index out of range"
  | some t => .ok t

/-- The `remove_shapes` collection loop of `get_src_nodes`
(lines 208-211): the elements whose type is `mesh`, kept with
multiplicity. -/
def collectMeshShapes (sc : Scene) : List String → Except String (List String)
  | [] => .ok []
  | x :: t =>
      exBind (lastOfShowType sc x) fun ty =>
      exBind (collectMeshShapes sc t) fun rest =>
      .ok (if ty = "mesh" then x :: rest else rest)

/-- The removal loop of `get_src_nodes` (lines 212-214):
`list.remove` deletes the first occurrence. -/
def removeEach (l : List String) (rs : List String) : List String :=
  rs.foldl (fun acc x => if x ∈ acc then acc.erase x else acc) l

/-- The accumulation loop of `get_src_nodes` (lines 216-220): append
each non-mesh source node not already present. -/
def addNonMesh (sc : Scene) : List String → List String → Except String (List String)
  | [], nl => .ok nl
  | x :: t, nl =>
      exBind (lastOfShowType sc x) fun ty =>
      if ty = "mesh" then
        addNonMesh sc t nl
      else if x ∈ nl then
        addNonMesh sc t nl
      else
        addNonMesh sc t (nl ++ [x])

/-- `get_src_nodes` from src/core.py.  `node_list` is the list the
Python function both mutates and returns; a call that omits the
argument receives the module-level shared default list (see C9). -/
def get_src_nodes (sc : Scene) : Nat → String → List String → Except String (List String)
  | 0, _, _ => .error "RecursionError: maximum recursion depth exceeded"
  | fuel + 1, node_name, node_list =>
      let src0 := sc.srcNodesShapes node_name
      exBind
        (if optTruthy src0 then
          exBind (collectMeshShapes sc (src0.getD [])) fun rs =>
          .ok (some (removeEach (src0.getD []) rs))
        else
          .ok src0) fun src1 =>
      if optTruthy src1 then
        exBind (addNonMesh sc (src1.getD []) node_list) fun nl1 =>
        (src1.getD []).foldl
          (fun acc x => exBind acc fun nl => get_src_nodes sc fuel x nl)
          (.ok nl1)
      else
        .ok node_list

/-- A small concrete scene for C9: node `a` has one non-default,
non-mesh source `n1`; node `b` has none. -/
def c9Scene : Scene where
  selection := []
  lsShowType := fun s =>
    if s = "n1" then ["n1", "utility"]
    else if s = "a" then ["a", "utility"]
    else if s = "b" then ["b", "utility"]
    else []
  defaultNodes := []
  objExists := fun _ => false
  listRelativesShapes := fun _ => none
  listRelativesParent := fun _ => none
  listConnSE := fun _ => none
  srcNodesOfPlug := fun _ => none
  srcPlugsOf := fun _ => none
  connSrcPairs := fun _ => none
  connDestPairs := fun _ => none
  connAllPairsPlug := fun _ => none
  connSrcPairsPlug := fun _ => none
  srcNodesShapes := fun s => if s = "a" then some ["n1"] else none
  hyperShadeObjects := fun _ => []
  listAttrVWOU := fun _ => none
  attrExists := fun _ _ => false
  attrChildren := fun _ _ => none
  getAttrVal := fun _ => .nonev
  getAttrType := fun _ => ""


theorem addNonMesh_mono (sc : Scene) :
    ∀ l nl nl', addNonMesh sc l nl = .ok nl' → ∀ x ∈ nl, x ∈ nl' := by
  intro l
  induction l with
  | nil =>
      intro nl nl' h x hx
      simp only [addNonMesh] at h
      cases h
      exact hx
  | cons a t ih =>
      intro nl nl' h x hx
      simp only [addNonMesh] at h
      cases hty : lastOfShowType sc a with
      | error e =>
          rw [hty] at h
          simp [exBind] at h
      | ok ty =>
          rw [hty] at h
          simp only [exBind] at h
          by_cases h1 : ty = "mesh"
          · rw [if_pos h1] at h
            exact ih nl nl' h x hx
          · rw [if_neg h1] at h
            by_cases h2 : a ∈ nl
            · rw [if_pos h2] at h
              exact ih nl nl' h x hx
            · rw [if_neg h2] at h
              exact ih (nl ++ [a]) nl' h x (List.mem_append_left _ hx)

theorem foldl_exBind_error {α : Type} (g : String → α → Except String α) :
    ∀ (l : List String) (e : String),
      l.foldl (fun acc x => exBind acc fun nl => g x nl) (.error e) = .error e := by
  intro l
  induction l with
  | nil => intro e; rfl
  | cons a t ih => intro e; simpa [exBind] using ih e

theorem srcFold_mono (sc : Scene) (f : Nat)
    (ihf : ∀ nn nl r, get_src_nodes sc f nn nl = .ok r → ∀ x ∈ nl, x ∈ r) :
    ∀ (l nl : List String) (r : List String),
      List.foldl (fun acc x => exBind acc fun nl₀ => get_src_nodes sc f x nl₀)
        (Except.ok nl) l = Except.ok r →
      ∀ x ∈ nl, x ∈ r := by
  intro l
  induction l with
  | nil =>
      intro nl r h x hx
      cases h
      exact hx
  | cons a t ih =>
      intro nl r h x hx
      rw [List.foldl_cons] at h
      cases hstep : get_src_nodes sc f a nl with
      | error e =>
          rw [show exBind (Except.ok nl) (fun nl₀ => get_src_nodes sc f a nl₀) =
              get_src_nodes sc f a nl from rfl, hstep, foldl_exBind_error] at h
          cases h
      | ok nl₁ =>
          rw [show exBind (Except.ok nl) (fun nl₀ => get_src_nodes sc f a nl₀) =
              get_src_nodes sc f a nl from rfl, hstep] at h
          exact ih nl₁ r h x (ihf a nl nl₁ hstep x hx)

/-- The returned list of `get_src_nodes` contains everything that was
already in `node_list`: the function only appends. -/
theorem get_src_nodes_mono (sc : Scene) :
    ∀ fuel nn nl r, get_src_nodes sc fuel nn nl = .ok r → ∀ x ∈ nl, x ∈ r := by
  intro fuel
  induction fuel with
  | zero =>
      intro nn nl r h
      simp [get_src_nodes] at h
  | succ f ih =>
      intro nn nl r h
      simp only [get_src_nodes] at h
      cases hA : (if optTruthy (sc.srcNodesShapes nn) then
          exBind (collectMeshShapes sc ((sc.srcNodesShapes nn).getD [])) fun rs =>
            .ok (some (removeEach ((sc.srcNodesShapes nn).getD []) rs))
        else
          .ok (sc.srcNodesShapes nn)) with
      | error e =>
          rw [hA] at h
          simp [exBind] at h
      | ok src1 =>
          rw [hA] at h
          simp only [exBind] at h
          by_cases htr : optTruthy src1 = true
          · rw [if_guard_true _ htr] at h
            cases hadd : addNonMesh sc (src1.getD []) nl with
            | error e =>
                rw [hadd] at h
                simp [exBind] at h
            | ok nl1 =>
                rw [hadd] at h
                simp only [exBind] at h
                intro x hx
                exact srcFold_mono sc f ih (src1.getD []) nl1 r h x
                  (addNonMesh_mono sc (src1.getD []) nl nl1 hadd x hx)
          · have htr' : optTruthy src1 = false := by
              revert htr
              cases optTruthy src1 <;> simp
            rw [if_guard_false _ htr'] at h
            cases h
            exact fun x hx => hx

/-! ## Claim C9: the shared mutable default `node_list` -/

/-- C9: `get_src_nodes` only ever appends to the `node_list` it is
given and returns that list, and calls that omit `node_list` share one
module-level default list.  Modelling two successive default-argument
calls as threading the first call's result into the second: whatever
the first call returned is still contained in the second call's
result; and on the concrete scene `c9Scene` the second call
`get_src_nodes(node_name="b")` after a call on `"a"` returns
`["n1"]` while a fresh call on `"b"` returns `[]` — so the result is
not a function of the arguments and the scene state alone. -/
theorem C9_shared_default_node_list (sc : Scene) (fuel₁ fuel₂ : Nat)
    (a b : String) (r₁ r₂ : List String)
    (_h₁ : get_src_nodes sc fuel₁ a [] = .ok r₁)
    (h₂ : get_src_nodes sc fuel₂ b r₁ = .ok r₂) :
    (∀ x ∈ r₁, x ∈ r₂) ∧
    (get_src_nodes c9Scene 3 "a" [] = .ok ["n1"] ∧
     get_src_nodes c9Scene 3 "b" ["n1"] = .ok ["n1"] ∧
     get_src_nodes c9Scene 3 "b" [] = .ok [] ∧
     (["n1"] : List String) ≠ ([] : List String)) :=
  ⟨get_src_nodes_mono sc fuel₂ b r₁ r₂ h₂, by rfl, by rfl, by rfl, by decide⟩

/-- C9 witness: the theorem applied to the concrete scene and calls. -/
theorem C9_witness :
    (get_src_nodes c9Scene 3 "a" [] = .ok ["n1"] ∧
     get_src_nodes c9Scene 3 "b" ["n1"] = .ok ["n1"]) ∧
    ((∀ x ∈ (["n1"] : List String), x ∈ (["n1"] : List String)) ∧
     (get_src_nodes c9Scene 3 "a" [] = .ok ["n1"] ∧
      get_src_nodes c9Scene 3 "b" ["n1"] = .ok ["n1"] ∧
      get_src_nodes c9Scene 3 "b" [] = .ok [] ∧
      (["n1"] : List String) ≠ ([] : List String))) :=
  ⟨⟨by rfl, by rfl⟩,
   C9_shared_default_node_list c9Scene 3 3 "a" "b" ["n1"] ["n1"]
     (by rfl) (by rfl)⟩

/-! ## The ShaderNetwork record and Python-dict association lists -/

/-- The `base_material` sub-dictionary (keys `name` and `type`). -/
structure BaseMat where
  name : String
  matType : String
deriving Repr, DecidableEq

/-- One value of the `nodes` mapping: keys `node_type` and
`Attributes`. -/
structure NodeRec where
  node_type : String
  attributes : List (String × PyVal)
deriving Repr

/-- The dictionary built by `build_shader_dict` (src/core.py lines
233-239): keys `base_material`, `nodes`, `connections`, `meshes`.
Python dictionaries are modelled as insertion-ordered association
lists. -/
structure ShaderRecord where
  base_material : BaseMat
  nodes : List (String × NodeRec)
  connections : List (List String)
  meshes : List String
deriving Repr

/-- Keys of a Python dict. -/
def alKeys {α : Type} (m : List (String × α)) : List String :=
  m.map Prod.fst

/-- Python `d[k]` as an `Option`. -/
def alGet {α : Type} (m : List (String × α)) (k : String) : Option α :=
  (m.find? (fun p => p.1 == k)).map Prod.snd

/-- Python `d[k] = v`: update in place if the key exists, else append
(dicts preserve insertion order). -/
def alSet {α : Type} : List (String × α) → String → α → List (String × α)
  | [], k, v => [(k, v)]
  | (k', v') :: t, k, v =>
      if k' = k then (k, v) :: t else (k', v') :: alSet t k v

/-- Python `del d[k]` (no-op if absent; the source only deletes
present keys). -/
def alErase {α : Type} : List (String × α) → String → List (String × α)
  | [], _ => []
  | (k', v') :: t, k => if k' = k then t else (k', v') :: alErase t k

/-! ## build_shader_dict (src/core.py lines 227-310) -/

/-- The mesh-collection loop of `build_shader_dict` (lines 251-255):
iterates over the `hyperShade` selection; the first condition
`each in meshes_with_material` always holds for iterated elements, so
the parent-lookup `elif` is dead when `full` is the iterated list
itself. -/
def meshesLoop (sc : Scene) (full : List String) :
    List String → List String → Except String (List String)
  | [], acc => .ok acc
  | x :: t, acc =>
      if x ∈ full then
        meshesLoop sc full t (acc ++ [x])
      else
        match sc.listRelativesParent x with
        | none => .error "TypeError: NoneType object is not subscriptable"
        | some [] => .error "IndexError: list index out of range"
        | some (p :: _) =>
            if p ∈ full then meshesLoop sc full t (acc ++ [x])
            else meshesLoop sc full t acc

/-- The shading-engine connection loop of `build_shader_dict`
(lines 260-266): plugs mentioning `dagSetMembers` are skipped, and for
each plug of the shading engine itself a reordered pair is appended. -/
def sgConnLoop (sc : Scene) (shading_engine : String) :
    List String → List (List String) → Except String (List (List String))
  | [], conns => .ok conns
  | each :: t, conns =>
      if pyInStr "dagSetMembers" each then
        sgConnLoop sc shading_engine t conns
      else if nodePrefixOf each = shading_engine then
        exBind (confirm_attr_order sc (sc.connAllPairsPlug each)) fun cd =>
        sgConnLoop sc shading_engine t (conns ++ [cd])
      else
        sgConnLoop sc shading_engine t conns

/-- `shader_dict["nodes"][each]["Attributes"][attr] = val`
(lines 306 and 308); raises `KeyError` when `each` has no entry. -/
def storeAttr (nodes : List (String × NodeRec)) (each attr : String)
    (v : PyVal) : Except String (List (String × NodeRec)) :=
  match alGet nodes each with
  | none => .error "KeyError"
  | some nr =>
      .ok (alSet nodes each { nr with attributes := alSet nr.attributes attr v })

/-- The attribute scan of one node (lines 283-308), threading
`skip_attributes`, the `nodes` dict and the `connections` list. -/
def attrScanLoop (sc : Scene) (each : String) :
    List String → List String → List (String × NodeRec) → List (List String) →
    Except String (List String × List (String × NodeRec) × List (List String))
  | [], skips, nodes, conns => .ok (skips, nodes, conns)
  | attr :: rest, skips, nodes, conns =>
      if sc.attrExists each attr then
        if optTruthy (sc.connSrcPairsPlug (each ++ "." ++ attr)) then
          exBind (confirm_attr_order sc
              (sc.connSrcPairsPlug (each ++ "." ++ attr))) fun cd =>
          attrScanLoop sc each rest
            (if optTruthy (sc.attrChildren each attr) then
              skips ++ (sc.attrChildren each attr).getD []
            else skips)
            nodes
            (if cd ∈ conns then conns else conns ++ [cd])
        else
          if attr ∈ skips then
            attrScanLoop sc each rest skips nodes conns
          else if sc.getAttrType (each ++ "." ++ attr) ∈
              ["float3", "float2", "double2", "double3"] then
            attrScanLoop sc each rest skips nodes conns
          else
            match sc.getAttrVal (each ++ "." ++ attr) with
            | .listv xs =>
                if !(xs.any pyTruthy) then
                  attrScanLoop sc each rest skips nodes conns
                else
                  exBind (storeAttr nodes each attr
                      (.listv (flatten_list xs))) fun nodes1 =>
                  attrScanLoop sc each rest skips nodes1 conns
            | v =>
                exBind (storeAttr nodes each attr v) fun nodes1 =>
                attrScanLoop sc each rest skips nodes1 conns
      else
        attrScanLoop sc each rest skips nodes conns

/-- `cmds.listAttr(each, ...)` followed by the attribute scan
(lines 281-308). -/
def nodeScan (sc : Scene) (each : String) (nodes : List (String × NodeRec))
    (conns : List (List String)) :
    Except String (List (String × NodeRec) × List (List String)) :=
  match sc.listAttrVWOU each with
  | none => .error "TypeError: NoneType object is not iterable"
  | some attrs =>
      exBind (attrScanLoop sc each attrs [] nodes conns) fun r =>
      .ok (r.2.1, r.2.2)

/-- The per-node loop of `build_shader_dict` (lines 270-308):
transforms with shapes and default nodes are skipped (`continue`); a
shapeless transform falls through to the attribute scan without a
`nodes` entry; every other node is recorded and then scanned. -/
def nodesLoop (sc : Scene) :
    List String → List (String × NodeRec) → List (List String) →
    Except String (List (String × NodeRec) × List (List String))
  | [], nodes, conns => .ok (nodes, conns)
  | each :: t, nodes, conns =>
      exBind (lastOfShowType sc each) fun ty =>
      if ty = "transform" then
        match sc.listRelativesShapes each with
        | none => .error "TypeError: object of type NoneType has no len"
        | some shp =>
            if shp.length ≠ 0 then
              nodesLoop sc t nodes conns
            else
              exBind (nodeScan sc each nodes conns) fun r =>
              nodesLoop sc t r.1 r.2
      else if each ∈ sc.defaultNodes then
        nodesLoop sc t nodes conns
      else
        exBind (nodeScan sc each (alSet nodes each ⟨ty, []⟩) conns) fun r =>
        nodesLoop sc t r.1 r.2

/-- `build_shader_dict` from src/core.py.  The fuel bounds the
recursion of `get_src_nodes`.  `dest` (line 259) is computed and never
used, exactly as in the source. -/
def build_shader_dict (sc : Scene) (fuel : Nat) (shading_engine : String) :
    Except String ShaderRecord :=
  exBind (match sc.srcNodesOfPlug (shading_engine ++ ".surfaceShader") with
          | none => .error "TypeError: NoneType object is not subscriptable"
          | some [] => .error "IndexError: list index out of range"
          | some (m :: _) => .ok m) fun material_name =>
  exBind (match (sc.lsShowType material_name).get? 1 with
          | none => .error "IndexError: list index out of range"
          | some t => .ok t) fun material_type =>
  exBind (meshesLoop sc (sc.hyperShadeObjects material_name)
      (sc.hyperShadeObjects material_name) []) fun meshes =>
  let _dest := sc.connDestPairs shading_engine
  exBind (match sc.connSrcPairs shading_engine with
          | none => .error "TypeError: NoneType object is not iterable"
          | some src => sgConnLoop sc shading_engine src []) fun conns0 =>
  exBind (get_src_nodes sc fuel shading_engine []) fun graph =>
  exBind (nodesLoop sc graph [] conns0) fun nc =>
  .ok { base_material := { name := material_name, matType := material_type },
        nodes := nc.1, connections := nc.2, meshes := meshes }

/-! ## export_shaders (src/core.py lines 45-94) -/

/-- The mesh-shape collection of the `"mesh"` branch (lines 57-61):
`listRelatives(each, shapes=True)` results are concatenated when
truthy (the call is made twice, as in the source; it is a pure
oracle). -/
def buildMeshList (sc : Scene) : List String → List String
  | [] => []
  | each :: t =>
      if optTruthy (sc.listRelativesShapes each) then
        (sc.listRelativesShapes each).getD [] ++ buildMeshList sc t
      else
        buildMeshList sc t

/-- The per-mesh dictionary loop of the `"mesh"` branch (lines 65-72):
looks up the mesh's shading engine (subscript `[0]` raises on an empty
or `None` result) and builds a record unless the key already exists. -/
def meshExportLoop (sc : Scene) (fuel : Nat) :
    List String → List (String × ShaderRecord) →
    Except String (List (String × ShaderRecord))
  | [], dict => .ok dict
  | each :: t, dict =>
      exBind (match sc.listConnSE each with
              | none => .error "TypeError: NoneType object is not subscriptable"
              | some [] => .error "IndexError: list index out of range"
              | some (sg :: _) => .ok sg) fun sg =>
      if sg ∈ alKeys dict then
        meshExportLoop sc fuel t dict
      else
        exBind (build_shader_dict sc fuel sg) fun r =>
        meshExportLoop sc fuel t (alSet dict sg r)

/-- The selection filter of the `"shadingEngine"` branch
(lines 77-79). -/
def seFilter (sc : Scene) : List String → Except String (List String)
  | [] => .ok []
  | each :: t =>
      exBind (lastOfShowType sc each) fun ty =>
      exBind (seFilter sc t) fun rest =>
      .ok (if ty = "shadingEngine" then each :: rest else rest)

/-- The per-shading-engine dictionary loop of the `"shadingEngine"`
branch (lines 83-88): after building the record, line 88 overwrites
its `meshes` entry with the empty list. -/
def seExportLoop (sc : Scene) (fuel : Nat) :
    List String → List (String × ShaderRecord) →
    Except String (List (String × ShaderRecord))
  | [], dict => .ok dict
  | each :: t, dict =>
      if each ∈ alKeys dict then
        seExportLoop sc fuel t dict
      else
        exBind (build_shader_dict sc fuel each) fun r =>
        seExportLoop sc fuel t (alSet dict each { r with meshes := [] })

/-- `export_shaders` from src/core.py.  Returns the logged messages
(`LOG.error` then the final `LOG.info`) and the dictionary passed to
`json.dump`; a selection_type that is neither `"mesh"` nor
`"shadingEngine"` falls through both branches and writes the empty
dictionary. -/
def export_shaders (sc : Scene) (fuel : Nat) (selection_type : String) :
    Except String (List String × List (String × ShaderRecord)) :=
  let logs0 :=
    if sc.selection.length < 1 then
      ["Cannot export because nothing is selected."]
    else []
  if selection_type = "mesh" then
    let meshes := buildMeshList sc sc.selection
    let logs1 := logs0 ++
      (if meshes.length < 1 then ["No Meshes found in selection"] else [])
    exBind (meshExportLoop sc fuel meshes []) fun dict =>
    .ok (logs1 ++ ["Shaders Successfully Exported."], dict)
  else if selection_type = "shadingEngine" then
    exBind (seFilter sc sc.selection) fun ses =>
    let logs1 := logs0 ++
      (if ses.length < 1 then ["No Meshes found in selection"] else [])
    exBind (seExportLoop sc fuel ses []) fun dict =>
    .ok (logs1 ++ ["Shaders Successfully Exported."], dict)
  else
    .ok (logs0 ++ ["Shaders Successfully Exported."], [])

/-! ## The persisted JSON document (json.dump with sort_keys=True) -/

/-- A JSON value. -/
inductive Jval where
  | jstr (s : String)
  | jnum (n : Int)
  | jbool (b : Bool)
  | jnull
  | jarr (xs : List Jval)
  | jobj (fields : List (String × Jval))
deriving Repr

mutual

/-- JSON serialization of a Python value (tuples become arrays). -/
def renderPyVal : PyVal → Jval
  | .numv n => .jnum n
  | .strv s => .jstr s
  | .boolv b => .jbool b
  | .nonev => .jnull
  | .listv xs => .jarr (renderPyValList xs)
  | .tuplev xs => .jarr (renderPyValList xs)

/-- JSON serialization of a list of Python values. -/
def renderPyValList : List PyVal → List Jval
  | [] => []
  | x :: t => renderPyVal x :: renderPyValList t

end

/-- Insertion into a key-sorted association list. -/
def insertSorted {α : Type} (k : String) (v : α) :
    List (String × α) → List (String × α)
  | [] => [(k, v)]
  | (k', v') :: t =>
      if k ≤ k' then (k, v) :: (k', v') :: t
      else (k', v') :: insertSorted k v t

/-- Key-sorting of an object's fields (`json.dump(..., sort_keys=True)`
sorts the keys of every object it writes). -/
def sortByKey {α : Type} : List (String × α) → List (String × α)
  | [] => []
  | (k, v) :: t => insertSorted k v (sortByKey t)

/-- JSON serialization of one `ShaderRecord` (the four fixed keys are
written in their sorted order, and the nested `nodes`, `Attributes`
objects get their keys sorted). -/
def renderRecord (r : ShaderRecord) : Jval :=
  .jobj
    [("base_material",
      .jobj [("name", .jstr r.base_material.name),
             ("type", .jstr r.base_material.matType)]),
     ("connections",
      .jarr (r.connections.map (fun c => .jarr (c.map Jval.jstr)))),
     ("meshes", .jarr (r.meshes.map Jval.jstr)),
     ("nodes",
      .jobj (sortByKey (r.nodes.map (fun p =>
        (p.1, Jval.jobj
          [("Attributes",
            .jobj (sortByKey (p.2.attributes.map (fun q =>
              (q.1, renderPyVal q.2))))),
           ("node_type", .jstr p.2.node_type)])))))]

/-- JSON serialization of the exported dictionary. -/
def renderDoc (d : List (String × ShaderRecord)) : Jval :=
  .jobj (sortByKey (d.map (fun p => (p.1, renderRecord p.2))))

/-- A JSON string. -/
def isStrJ : Jval → Bool
  | .jstr _ => true
  | _ => false

/-- A two-element array of plug strings. -/
def isPlugPairJ : Jval → Bool
  | .jarr [a, b] => isStrJ a && isStrJ b
  | _ => false

/-- An array of strings. -/
def isStrArrJ : Jval → Bool
  | .jarr xs => xs.all isStrJ
  | _ => false

/-- One value of the `nodes` mapping: exactly the keys `Attributes`
(an object of attribute values) and `node_type` (a string). -/
def isNodeEntryJ : Jval → Bool
  | .jobj [(k1, a), (k2, t)] =>
      (k1 == "Attributes") &&
      (match a with
       | .jobj _ => true
       | _ => false) &&
      (k2 == "node_type") && isStrJ t
  | _ => false

/-- The ShaderNetwork shape of one record: a `base_material` object
with `name` and `type`, a `connections` array of plug pairs, a
`meshes` array of mesh names, and a `nodes` object whose values are
node entries. -/
def isRecordJ : Jval → Bool
  | .jobj [(kb, b), (kc, c), (km, m), (kn, n)] =>
      (kb == "base_material") &&
      (match b with
       | .jobj [(k1, n1), (k2, t2)] =>
           (k1 == "name") && isStrJ n1 && (k2 == "type") && isStrJ t2
       | _ => false) &&
      (kc == "connections") &&
      (match c with
       | .jarr cs => cs.all isPlugPairJ
       | _ => false) &&
      (km == "meshes") && isStrArrJ m &&
      (kn == "nodes") &&
      (match n with
       | .jobj ns => (ns.map Prod.snd).all isNodeEntryJ
       | _ => false)
  | _ => false

/-- A document of ShaderNetwork records: a JSON object each of whose
values has the record shape. -/
def isShaderDocJ : Jval → Bool
  | .jobj entries => (entries.map Prod.snd).all isRecordJ
  | _ => false

/-- A concrete scene for C6: shading engine `SG1` with material `m`
and one mesh shape `meshShape1` bound (the host's objects-using-shader
query returns it). -/
def c6Scene : Scene where
  selection := ["SG1"]
  lsShowType := fun s =>
    if s = "SG1" then ["SG1", "shadingEngine"]
    else if s = "m" then ["m", "blinn"]
    else if s = "meshShape1" then ["meshShape1", "mesh"]
    else []
  defaultNodes := []
  objExists := fun _ => true
  listRelativesShapes := fun _ => none
  listRelativesParent := fun _ => none
  listConnSE := fun _ => none
  srcNodesOfPlug := fun p =>
    if p = "SG1.surfaceShader" then some ["m"] else none
  srcPlugsOf := fun p =>
    if p = "SG1.surfaceShader" then some ["m.outColor"] else none
  connSrcPairs := fun n =>
    if n = "SG1" then some ["SG1.surfaceShader", "m.outColor"] else none
  connDestPairs := fun _ => none
  connAllPairsPlug := fun p =>
    if p = "SG1.surfaceShader" then
      some ["SG1.surfaceShader", "m.outColor"]
    else none
  connSrcPairsPlug := fun _ => none
  srcNodesShapes := fun n => if n = "SG1" then some ["m"] else none
  hyperShadeObjects := fun m => if m = "m" then ["meshShape1"] else []
  listAttrVWOU := fun n => if n = "m" then some [] else none
  attrExists := fun _ _ => false
  attrChildren := fun _ _ => none
  getAttrVal := fun _ => .nonev
  getAttrType := fun _ => ""

/-- A concrete scene for C2: like `c6Scene`, but the material's
attribute `c` is fed by the default node `time1` (plug `time1.o`),
and `time1` is a default scene node. -/
def c2Scene : Scene where
  selection := ["SG1"]
  lsShowType := fun s =>
    if s = "SG1" then ["SG1", "shadingEngine"]
    else if s = "m" then ["m", "blinn"]
    else if s = "time1" then ["time1", "time"]
    else []
  defaultNodes := ["time1"]
  objExists := fun _ => true
  listRelativesShapes := fun _ => none
  listRelativesParent := fun _ => none
  listConnSE := fun _ => none
  srcNodesOfPlug := fun p =>
    if p = "SG1.surfaceShader" then some ["m"] else none
  srcPlugsOf := fun p =>
    if p = "SG1.surfaceShader" then some ["m.outColor"]
    else if p = "m.c" then some ["time1.o"]
    else none
  connSrcPairs := fun n =>
    if n = "SG1" then some ["SG1.surfaceShader", "m.outColor"] else none
  connDestPairs := fun _ => none
  connAllPairsPlug := fun p =>
    if p = "SG1.surfaceShader" then
      some ["SG1.surfaceShader", "m.outColor"]
    else none
  connSrcPairsPlug := fun p =>
    if p = "m.c" then some ["m.c", "time1.o"] else none
  srcNodesShapes := fun n =>
    if n = "SG1" then some ["m"]
    else if n = "m" then some ["time1"]
    else none
  hyperShadeObjects := fun m => if m = "m" then ["meshShape1"] else []
  listAttrVWOU := fun n => if n = "m" then some ["c"] else none
  attrExists := fun n a => n = "m" && a = "c"
  attrChildren := fun _ _ => none
  getAttrVal := fun _ => .nonev
  getAttrType := fun _ => ""

/-- A concrete scene for C7: one selected object that is neither a
mesh (no shapes) nor a shading engine. -/
def c7Scene : Scene where
  selection := ["obj1"]
  lsShowType := fun s => if s = "obj1" then ["obj1", "transform"] else []
  defaultNodes := []
  objExists := fun _ => false
  listRelativesShapes := fun _ => none
  listRelativesParent := fun _ => none
  listConnSE := fun _ => none
  srcNodesOfPlug := fun _ => none
  srcPlugsOf := fun _ => none
  connSrcPairs := fun _ => none
  connDestPairs := fun _ => none
  connAllPairsPlug := fun _ => none
  connSrcPairsPlug := fun _ => none
  srcNodesShapes := fun _ => none
  hyperShadeObjects := fun _ => []
  listAttrVWOU := fun _ => none
  attrExists := fun _ _ => false
  attrChildren := fun _ _ => none
  getAttrVal := fun _ => .nonev
  getAttrType := fun _ => ""

/-! ## Extraction lemmas for the monadic embedding -/

theorem exBind_ok {α β : Type} (x : Except String α) (f : α → Except String β)
    (b : β) :
    exBind x f = .ok b ↔ ∃ a, x = .ok a ∧ f a = .ok b := by
  cases x with
  | error e => simp [exBind]
  | ok a => simp [exBind]

/-- The mesh loop of `build_shader_dict` over the very list it tests
membership in is the identity. -/
theorem meshesLoop_self (sc : Scene) (full : List String) :
    ∀ l acc, (∀ x ∈ l, x ∈ full) → meshesLoop sc full l acc = .ok (acc ++ l) := by
  intro l
  induction l with
  | nil => intro acc _; simp [meshesLoop]
  | cons x t ih =>
      intro acc hsub
      have hx : x ∈ full := hsub x (List.mem_cons_self x t)
      simp only [meshesLoop, if_pos hx]
      rw [ih (acc ++ [x]) (fun y hy => hsub y (List.mem_cons_of_mem x hy))]
      simp

/-- Every successful `build_shader_dict` stores, as the record's
`meshes`, exactly the host's objects-using-shader query result for the
record's base material. -/
theorem build_meshes_eq (sc : Scene) (fuel : Nat) (sg : String)
    (r : ShaderRecord) (h : build_shader_dict sc fuel sg = .ok r) :
    r.meshes = sc.hyperShadeObjects r.base_material.name := by
  simp only [build_shader_dict] at h
  rw [exBind_ok] at h
  obtain ⟨m, _, h⟩ := h
  rw [exBind_ok] at h
  obtain ⟨mt, _, h⟩ := h
  rw [exBind_ok] at h
  obtain ⟨meshes, hmeshes, h⟩ := h
  rw [exBind_ok] at h
  obtain ⟨conns0, _, h⟩ := h
  rw [exBind_ok] at h
  obtain ⟨graph, _, h⟩ := h
  rw [exBind_ok] at h
  obtain ⟨nc, _, h⟩ := h
  injection h with h
  subst h
  rw [meshesLoop_self sc _ _ [] (fun x hx => hx)] at hmeshes
  injection hmeshes with hmeshes
  subst hmeshes
  simp

theorem alSet_mem {α : Type} :
    ∀ (d : List (String × α)) (k : String) (v : α) (p : String × α),
      p ∈ alSet d k v → p = (k, v) ∨ p ∈ d := by
  intro d
  induction d with
  | nil =>
      intro k v p hp
      simp [alSet] at hp
      exact Or.inl hp
  | cons q t ih =>
      obtain ⟨k1, v1⟩ := q
      intro k v p hp
      simp only [alSet] at hp
      by_cases hk : k1 = k
      · rw [if_pos hk] at hp
        rcases List.mem_cons.mp hp with h1 | h2
        · exact Or.inl h1
        · exact Or.inr (List.mem_cons_of_mem _ h2)
      · rw [if_neg hk] at hp
        rcases List.mem_cons.mp hp with h1 | h2
        · exact Or.inr (h1 ▸ List.mem_cons_self _ t)
        · rcases ih k v p h2 with h3 | h4
          · exact Or.inl h3
          · exact Or.inr (List.mem_cons_of_mem _ h4)

theorem meshExportLoop_entries (sc : Scene) (fuel : Nat) :
    ∀ meshes dict dict', meshExportLoop sc fuel meshes dict = .ok dict' →
      ∀ p ∈ dict', p ∈ dict ∨ build_shader_dict sc fuel p.1 = .ok p.2 := by
  intro meshes
  induction meshes with
  | nil =>
      intro dict dict' h p hp
      simp only [meshExportLoop] at h
      injection h with h
      subst h
      exact Or.inl hp
  | cons each t ih =>
      intro dict dict' h p hp
      simp only [meshExportLoop] at h
      rw [exBind_ok] at h
      obtain ⟨sg, _, h⟩ := h
      by_cases hmem : sg ∈ alKeys dict
      · rw [if_pos hmem] at h
        exact ih dict dict' h p hp
      · rw [if_neg hmem] at h
        rw [exBind_ok] at h
        obtain ⟨r, hr, h⟩ := h
        rcases ih (alSet dict sg r) dict' h p hp with h1 | h2
        · rcases alSet_mem dict sg r p h1 with h3 | h4
          · right
            rw [h3]
            exact hr
          · exact Or.inl h4
        · exact Or.inr h2

theorem seExportLoop_entries (sc : Scene) (fuel : Nat) :
    ∀ ses dict dict', seExportLoop sc fuel ses dict = .ok dict' →
      ∀ p ∈ dict', p ∈ dict ∨
        ∃ r, build_shader_dict sc fuel p.1 = .ok r ∧
          p.2 = { r with meshes := [] } := by
  intro ses
  induction ses with
  | nil =>
      intro dict dict' h p hp
      simp only [seExportLoop] at h
      injection h with h
      subst h
      exact Or.inl hp
  | cons each t ih =>
      intro dict dict' h p hp
      simp only [seExportLoop] at h
      by_cases hmem : each ∈ alKeys dict
      · rw [if_pos hmem] at h
        exact ih dict dict' h p hp
      · rw [if_neg hmem] at h
        rw [exBind_ok] at h
        obtain ⟨r, hr, h⟩ := h
        rcases ih (alSet dict each { r with meshes := [] }) dict' h p hp with h1 | h2
        · rcases alSet_mem dict each { r with meshes := [] } p h1 with h3 | h4
          · right
            refine ⟨r, ?_, ?_⟩
            · rw [h3]
              exact hr
            · rw [h3]
          · exact Or.inl h4
        · exact Or.inr h2

/-! ## Claim C6: the meshes field -/

/-- C6 counterexample: on `c6Scene` the shading group `SG1` has a
bound mesh (`hyperShade` reports `meshShape1`), yet an export with
selection_type `"shadingEngine"` stores the empty `meshes` list —
line 88 of src/core.py overwrites it — contradicting the claim that
for either selection_type the record's meshes sequence is the
non-empty list of bound mesh names. -/
theorem C6_counterexample :
    export_shaders c6Scene 3 "shadingEngine" =
      .ok (["Shaders Successfully Exported."],
           [("SG1", { base_material := { name := "m", matType := "blinn" },
                      nodes := [("m", { node_type := "blinn", attributes := [] })],
                      connections := [["m.outColor", "SG1.surfaceShader"]],
                      meshes := [] })]) ∧
    c6Scene.hyperShadeObjects "m" = ["meshShape1"] ∧
    (["meshShape1"] : List String) ≠ [] :=
  ⟨rfl, rfl, by decide⟩

/-- C6 (amended): in every exported record, for selection_type
`"mesh"` the `meshes` field is exactly the host's
objects-using-shader query result for the record's base material
(the bound meshes); for selection_type `"shadingEngine"` the field is
always overwritten with the empty list (line 88), even when meshes
are bound. -/
theorem C6_meshes_by_branch (sc : Scene) (fuel : Nat)
    (selection_type : String) (logs : List String)
    (dict : List (String × ShaderRecord))
    (h : export_shaders sc fuel selection_type = .ok (logs, dict)) :
    ∀ p ∈ dict,
      (selection_type = "mesh" →
        p.2.meshes = sc.hyperShadeObjects p.2.base_material.name) ∧
      (selection_type = "shadingEngine" → p.2.meshes = []) := by
  intro p hp
  constructor
  · intro hm
    subst hm
    simp only [export_shaders] at h
    rw [if_pos trivial] at h
    rw [exBind_ok] at h
    obtain ⟨d, hd, heq⟩ := h
    injection heq with heq
    have hd2 : d = dict := congrArg Prod.snd heq
    subst hd2
    rcases meshExportLoop_entries sc fuel _ [] d hd p hp with h1 | h2
    · exact absurd h1 (List.not_mem_nil p)
    · exact build_meshes_eq sc fuel p.1 p.2 h2
  · intro hs
    subst hs
    simp only [export_shaders] at h
    rw [if_neg (by decide), if_pos trivial] at h
    rw [exBind_ok] at h
    obtain ⟨ses, hses, h⟩ := h
    rw [exBind_ok] at h
    obtain ⟨d, hd, heq⟩ := h
    injection heq with heq
    have hd2 : d = dict := congrArg Prod.snd heq
    subst hd2
    rcases seExportLoop_entries sc fuel ses [] d hd p hp with h1 | h2
    · exact absurd h1 (List.not_mem_nil p)
    · obtain ⟨r, _, hpr⟩ := h2
      rw [hpr]

/-- C6 witness: the amended theorem applied to the concrete scene. -/
theorem C6_witness :
    (export_shaders c6Scene 3 "shadingEngine" =
      .ok (["Shaders Successfully Exported."],
           [("SG1", { base_material := { name := "m", matType := "blinn" },
                      nodes := [("m", { node_type := "blinn", attributes := [] })],
                      connections := [["m.outColor", "SG1.surfaceShader"]],
                      meshes := [] })])) ∧
    (∀ p ∈ [("SG1", ({ base_material := { name := "m", matType := "blinn" },
                       nodes := [("m", { node_type := "blinn", attributes := [] })],
                       connections := [["m.outColor", "SG1.surfaceShader"]],
                       meshes := [] } : ShaderRecord))],
      (("shadingEngine" : String) = "mesh" →
        p.2.meshes = c6Scene.hyperShadeObjects p.2.base_material.name) ∧
      (("shadingEngine" : String) = "shadingEngine" → p.2.meshes = [])) :=
  ⟨rfl, C6_meshes_by_branch c6Scene 3 "shadingEngine"
    ["Shaders Successfully Exported."] _ rfl⟩

/-! ## Claim C7: empty or unusable selections -/

theorem buildMeshList_nil (sc : Scene) :
    ∀ l, (∀ s ∈ l, optTruthy (sc.listRelativesShapes s) = false) →
      buildMeshList sc l = [] := by
  intro l
  induction l with
  | nil => intro _; rfl
  | cons s t ih =>
      intro hall
      simp only [buildMeshList]
      rw [if_guard_false _ (hall s (List.mem_cons_self s t))]
      exact ih (fun x hx => hall x (List.mem_cons_of_mem s hx))

theorem seFilter_nil (sc : Scene) :
    ∀ l, (∀ s ∈ l, ∃ t, (sc.lsShowType s).getLast? = some t ∧
        t ≠ "shadingEngine") →
      seFilter sc l = .ok [] := by
  intro l
  induction l with
  | nil => intro _; rfl
  | cons s t ih =>
      intro hall
      obtain ⟨ty, hty, hne⟩ := hall s (List.mem_cons_self s t)
      simp only [seFilter]
      have h1 : lastOfShowType sc s = .ok ty := by
        unfold lastOfShowType
        rw [hty]
      rw [h1]
      simp only [exBind]
      rw [ih (fun x hx => hall x (List.mem_cons_of_mem s hx))]
      simp only [exBind]
      rw [if_neg hne]

/-- C7: with an empty selection, or a selection without meshes
(selection_type `"mesh"`), or a selection without shading groups
(selection_type `"shadingEngine"`), `export_shaders` does not raise:
it logs the error messages, completes, and writes a JSON file
containing an empty object. -/
theorem C7_empty_or_unusable_selection (sc : Scene) (fuel : Nat) :
    (sc.selection = [] →
      export_shaders sc fuel "mesh" =
        .ok (["Cannot export because nothing is selected.",
              "No Meshes found in selection",
              "Shaders Successfully Exported."], []) ∧
      export_shaders sc fuel "shadingEngine" =
        .ok (["Cannot export because nothing is selected.",
              "No Meshes found in selection",
              "Shaders Successfully Exported."], [])) ∧
    (sc.selection ≠ [] →
      (∀ s ∈ sc.selection, optTruthy (sc.listRelativesShapes s) = false) →
      export_shaders sc fuel "mesh" =
        .ok (["No Meshes found in selection",
              "Shaders Successfully Exported."], [])) ∧
    (sc.selection ≠ [] →
      (∀ s ∈ sc.selection, ∃ t, (sc.lsShowType s).getLast? = some t ∧
          t ≠ "shadingEngine") →
      export_shaders sc fuel "shadingEngine" =
        .ok (["No Meshes found in selection",
              "Shaders Successfully Exported."], [])) ∧
    renderDoc [] = Jval.jobj [] := by
  refine ⟨?_, ?_, ?_, rfl⟩
  · intro h
    constructor
    · simp [export_shaders, h, buildMeshList, meshExportLoop, exBind]
    · simp [export_shaders, h, seFilter, seExportLoop, exBind]
  · intro hne hall
    have hm : buildMeshList sc sc.selection = [] := buildMeshList_nil sc _ hall
    have hlen : ¬ (sc.selection.length < 1) := by
      cases hsel : sc.selection with
      | nil => exact absurd hsel hne
      | cons a t => simp
    simp [export_shaders, hm, hlen, meshExportLoop, exBind]
  · intro hne hall
    have hf : seFilter sc sc.selection = .ok [] := seFilter_nil sc _ hall
    have hlen : ¬ (sc.selection.length < 1) := by
      cases hsel : sc.selection with
      | nil => exact absurd hsel hne
      | cons a t => simp
    simp [export_shaders, hf, hlen, seExportLoop, exBind]

/-- C7 witness: the theorem applied to a scene with an empty
selection and to a scene whose selection has neither meshes nor
shading groups. -/
theorem C7_witness :
    ((export_shaders c9Scene 3 "mesh" =
        .ok (["Cannot export because nothing is selected.",
              "No Meshes found in selection",
              "Shaders Successfully Exported."], []) ∧
      export_shaders c9Scene 3 "shadingEngine" =
        .ok (["Cannot export because nothing is selected.",
              "No Meshes found in selection",
              "Shaders Successfully Exported."], [])) ∧
     export_shaders c7Scene 3 "mesh" =
        .ok (["No Meshes found in selection",
              "Shaders Successfully Exported."], []) ∧
     export_shaders c7Scene 3 "shadingEngine" =
        .ok (["No Meshes found in selection",
              "Shaders Successfully Exported."], [])) :=
  ⟨(C7_empty_or_unusable_selection c9Scene 3).1 rfl,
   (C7_empty_or_unusable_selection c7Scene 3).2.1 (by decide)
     (fun s _ => rfl),
   (C7_empty_or_unusable_selection c7Scene 3).2.2.1 (by decide)
     (fun s hs => by
       have hs1 : s = "obj1" := List.mem_singleton.mp hs
       subst hs1
       exact ⟨"transform", rfl, by decide⟩)⟩

/-! ## Claim C4: shape of the exported document -/

theorem bool_eq_false {b : Bool} (h : ¬ b = true) : b = false := by
  cases b with
  | false => rfl
  | true => exact absurd rfl h

/-- `confirm_attr_order` always returns a two-element pair on
success. -/
theorem confirm_pair (sc : Scene) (ca : Option (List String))
    (cd : List String) (h : confirm_attr_order sc ca = .ok cd) :
    ∃ a b, cd = [a, b] := by
  cases ca with
  | none => simp [confirm_attr_order] at h
  | some l =>
      cases l with
      | nil => simp [confirm_attr_order] at h
      | cons x l2 =>
          cases l2 with
          | nil => simp [confirm_attr_order] at h
          | cons y rest =>
              simp only [confirm_attr_order] at h
              by_cases h1 : optTruthy (sc.srcPlugsOf x) = true
              · rw [if_guard_true _ h1] at h
                by_cases h2 : y ∈ (sc.srcPlugsOf x).getD []
                · rw [if_pos h2] at h
                  injection h with h
                  exact ⟨y, x, h.symm⟩
                · rw [if_neg h2] at h
                  injection h with h
                  exact ⟨x, y, h.symm⟩
              · rw [if_guard_false _ (bool_eq_false h1)] at h
                injection h with h
                exact ⟨x, y, h.symm⟩

theorem sgConnLoop_pairs (sc : Scene) (sg : String) :
    ∀ src conns conns', sgConnLoop sc sg src conns = .ok conns' →
      (∀ c ∈ conns, ∃ a b, c = [a, b]) →
      ∀ c ∈ conns', ∃ a b, c = [a, b] := by
  intro src
  induction src with
  | nil =>
      intro conns conns' h hc
      injection h with h
      subst h
      exact hc
  | cons each t ih =>
      intro conns conns' h hc
      simp only [sgConnLoop] at h
      by_cases h1 : pyInStr "dagSetMembers" each = true
      · rw [if_guard_true _ h1] at h
        exact ih conns conns' h hc
      · rw [if_guard_false _ (bool_eq_false h1)] at h
        by_cases h2 : nodePrefixOf each = sg
        · rw [if_pos h2] at h
          rw [exBind_ok] at h
          obtain ⟨cd, hcd, h⟩ := h
          apply ih _ _ h
          intro c hcm
          rcases List.mem_append.mp hcm with hcl | hcr
          · exact hc c hcl
          · exact (List.mem_singleton.mp hcr) ▸ confirm_pair sc _ cd hcd
        · rw [if_neg h2] at h
          exact ih conns conns' h hc

theorem attrScanLoop_pairs (sc : Scene) (each : String) :
    ∀ attrs skips nodes conns out,
      attrScanLoop sc each attrs skips nodes conns = .ok out →
      (∀ c ∈ conns, ∃ a b, c = [a, b]) →
      ∀ c ∈ out.2.2, ∃ a b, c = [a, b] := by
  intro attrs
  induction attrs with
  | nil =>
      intro skips nodes conns out h hc
      injection h with h
      subst h
      exact hc
  | cons attr rest ih =>
      intro skips nodes conns out h hc
      simp only [attrScanLoop] at h
      split at h
      · split at h
        · rw [exBind_ok] at h
          obtain ⟨cd, hcd, h⟩ := h
          apply ih _ _ _ _ h
          intro c hcm
          by_cases hdup : cd ∈ conns
          · rw [if_pos hdup] at hcm
            exact hc c hcm
          · rw [if_neg hdup] at hcm
            rcases List.mem_append.mp hcm with h1 | h2
            · exact hc c h1
            · exact (List.mem_singleton.mp h2) ▸ confirm_pair sc _ cd hcd
        · split at h
          · exact ih _ _ _ _ h hc
          · split at h
            · exact ih _ _ _ _ h hc
            · split at h
              · split at h
                · exact ih _ _ _ _ h hc
                · rw [exBind_ok] at h
                  obtain ⟨nodes1, _, h⟩ := h
                  exact ih _ _ _ _ h hc
              all_goals
                rw [exBind_ok] at h
                obtain ⟨nodes1, _, h⟩ := h
                exact ih _ _ _ _ h hc
      · exact ih _ _ _ _ h hc

theorem nodeScan_pairs (sc : Scene) (each : String)
    (nodes : List (String × NodeRec)) (conns : List (List String))
    (r : List (String × NodeRec) × List (List String))
    (h : nodeScan sc each nodes conns = .ok r)
    (hc : ∀ c ∈ conns, ∃ a b, c = [a, b]) :
    ∀ c ∈ r.2, ∃ a b, c = [a, b] := by
  unfold nodeScan at h
  cases hl : sc.listAttrVWOU each with
  | none =>
      rw [hl] at h
      simp at h
  | some attrs =>
      rw [hl] at h
      rw [exBind_ok] at h
      obtain ⟨r0, hr0, h⟩ := h
      injection h with h
      subst h
      exact attrScanLoop_pairs sc each attrs [] nodes conns r0 hr0 hc

theorem nodesLoop_pairs (sc : Scene) :
    ∀ graph nodes conns out, nodesLoop sc graph nodes conns = .ok out →
      (∀ c ∈ conns, ∃ a b, c = [a, b]) →
      ∀ c ∈ out.2, ∃ a b, c = [a, b] := by
  intro graph
  induction graph with
  | nil =>
      intro nodes conns out h hc
      injection h with h
      subst h
      exact hc
  | cons each t ih =>
      intro nodes conns out h hc
      simp only [nodesLoop] at h
      rw [exBind_ok] at h
      obtain ⟨ty, _, h⟩ := h
      split at h
      · split at h
        · simp at h
        · split at h
          · exact ih _ _ _ h hc
          · rw [exBind_ok] at h
            obtain ⟨r, hr, h⟩ := h
            exact ih _ _ _ h (nodeScan_pairs sc each _ _ r hr hc)
      · split at h
        · exact ih _ _ _ h hc
        · rw [exBind_ok] at h
          obtain ⟨r, hr, h⟩ := h
          exact ih _ _ _ h (nodeScan_pairs sc each _ _ r hr hc)

/-- Every successful `build_shader_dict` produces only two-element
connection pairs. -/
theorem build_pairs (sc : Scene) (fuel : Nat) (sg : String)
    (r : ShaderRecord) (h : build_shader_dict sc fuel sg = .ok r) :
    ∀ c ∈ r.connections, ∃ a b, c = [a, b] := by
  simp only [build_shader_dict] at h
  rw [exBind_ok] at h
  obtain ⟨m, _, h⟩ := h
  rw [exBind_ok] at h
  obtain ⟨mt, _, h⟩ := h
  rw [exBind_ok] at h
  obtain ⟨meshes, _, h⟩ := h
  rw [exBind_ok] at h
  obtain ⟨conns0, hc0, h⟩ := h
  rw [exBind_ok] at h
  obtain ⟨graph, _, h⟩ := h
  rw [exBind_ok] at h
  obtain ⟨nc, hnc, h⟩ := h
  injection h with h
  subst h
  have hpairs0 : ∀ c ∈ conns0, ∃ a b, c = [a, b] := by
    cases hsp : sc.connSrcPairs sg with
    | none =>
        rw [hsp] at hc0
        simp at hc0
    | some src =>
        rw [hsp] at hc0
        exact sgConnLoop_pairs sc sg src [] conns0 hc0
          (fun c hcm => absurd hcm (List.not_mem_nil c))
  exact nodesLoop_pairs sc graph [] conns0 nc hnc hpairs0

theorem mem_insertSorted {α : Type} (k : String) (v : α) :
    ∀ (l : List (String × α)) p, p ∈ insertSorted k v l → p = (k, v) ∨ p ∈ l := by
  intro l
  induction l with
  | nil =>
      intro p hp
      exact Or.inl (List.mem_singleton.mp hp)
  | cons q t ih =>
      obtain ⟨k1, v1⟩ := q
      intro p hp
      simp only [insertSorted] at hp
      by_cases hle : k ≤ k1
      · rw [if_pos hle] at hp
        rcases List.mem_cons.mp hp with h1 | h2
        · exact Or.inl h1
        · exact Or.inr h2
      · rw [if_neg hle] at hp
        rcases List.mem_cons.mp hp with h1 | h2
        · exact Or.inr (h1 ▸ List.mem_cons_self _ t)
        · rcases ih p h2 with h3 | h4
          · exact Or.inl h3
          · exact Or.inr (List.mem_cons_of_mem _ h4)

theorem mem_sortByKey {α : Type} :
    ∀ (l : List (String × α)) p, p ∈ sortByKey l → p ∈ l := by
  intro l
  induction l with
  | nil => intro p hp; exact hp
  | cons q t ih =>
      obtain ⟨k1, v1⟩ := q
      intro p hp
      simp only [sortByKey] at hp
      rcases mem_insertSorted k1 v1 (sortByKey t) p hp with h1 | h2
      · exact h1 ▸ List.mem_cons_self _ t
      · exact List.mem_cons_of_mem _ (ih p h2)

theorem all_isNodeEntryJ_render (nodes : List (String × NodeRec)) :
    (List.map Prod.snd (sortByKey (List.map (fun p =>
        (p.1, Jval.jobj
          [("Attributes", Jval.jobj (sortByKey (List.map (fun q =>
              (q.1, renderPyVal q.2)) p.2.attributes))),
           ("node_type", Jval.jstr p.2.node_type)])) nodes))).all
      isNodeEntryJ = true := by
  rw [List.all_eq_true]
  intro x hx
  rcases List.mem_map.mp hx with ⟨p, hpm, rfl⟩
  have hp2 := mem_sortByKey _ p hpm
  rcases List.mem_map.mp hp2 with ⟨q, _, rfl⟩
  rfl

/-- Rendering a record whose connection entries are all two-element
pairs yields a value of the ShaderNetwork shape. -/
theorem isRecordJ_render (r : ShaderRecord)
    (hc : ∀ c ∈ r.connections, ∃ a b, c = [a, b]) :
    isRecordJ (renderRecord r) = true := by
  show (("base_material" == "base_material") &&
      (("name" == "name") && isStrJ (.jstr r.base_material.name) &&
       ("type" == "type") && isStrJ (.jstr r.base_material.matType)) &&
      ("connections" == "connections") &&
      ((r.connections.map (fun c => Jval.jarr (c.map Jval.jstr))).all
        isPlugPairJ) &&
      ("meshes" == "meshes") && isStrArrJ (.jarr (r.meshes.map Jval.jstr)) &&
      ("nodes" == "nodes") &&
      (((sortByKey (r.nodes.map (fun p =>
          (p.1, Jval.jobj
            [("Attributes",
              .jobj (sortByKey (p.2.attributes.map (fun q =>
                (q.1, renderPyVal q.2))))),
             ("node_type", .jstr p.2.node_type)])))).map Prod.snd).all
        isNodeEntryJ)) = true
  have hconn : (r.connections.map (fun c => Jval.jarr (c.map Jval.jstr))).all
      isPlugPairJ = true := by
    rw [List.all_eq_true]
    intro x hx
    rcases List.mem_map.mp hx with ⟨c, hcm, rfl⟩
    obtain ⟨a, b, rfl⟩ := hc c hcm
    rfl
  have hmesh : isStrArrJ (.jarr (r.meshes.map Jval.jstr)) = true := by
    show (r.meshes.map Jval.jstr).all isStrJ = true
    rw [List.all_eq_true]
    intro x hx
    rcases List.mem_map.mp hx with ⟨s, _, rfl⟩
    rfl
  rw [hconn, hmesh, all_isNodeEntryJ_render r.nodes]
  rfl

/-- Rendering a dictionary of well-shaped records yields a
ShaderNetwork document. -/
theorem isShaderDocJ_render (d : List (String × ShaderRecord))
    (hrec : ∀ p ∈ d, isRecordJ (renderRecord p.2) = true) :
    isShaderDocJ (renderDoc d) = true := by
  show ((sortByKey (d.map (fun p => (p.1, renderRecord p.2)))).map
      Prod.snd).all isRecordJ = true
  rw [List.all_eq_true]
  intro x hx
  rcases List.mem_map.mp hx with ⟨p, hpm, rfl⟩
  have hp2 := mem_sortByKey _ p hpm
  rcases List.mem_map.mp hp2 with ⟨q, hq, rfl⟩
  exact hrec q hq

theorem alKeys_alSet_mem {α : Type} (d : List (String × α)) (key : String)
    (v : α) (k : String) (hk : k ∈ alKeys (alSet d key v)) :
    k = key ∨ k ∈ alKeys d := by
  rcases List.mem_map.mp hk with ⟨p, hp, rfl⟩
  rcases alSet_mem d key v p hp with h1 | h2
  · exact Or.inl (by rw [h1])
  · exact Or.inr (List.mem_map.mpr ⟨p, h2, rfl⟩)

theorem lastOfShowType_ok (sc : Scene) (s ty : String)
    (h : lastOfShowType sc s = .ok ty) :
    (sc.lsShowType s).getLast? = some ty := by
  unfold lastOfShowType at h
  cases hg : (sc.lsShowType s).getLast? with
  | none =>
      rw [hg] at h
      simp at h
  | some u =>
      rw [hg] at h
      injection h with h
      rw [h]

theorem seFilter_typed (sc : Scene) :
    ∀ sel ses, seFilter sc sel = .ok ses →
      ∀ x ∈ ses, (sc.lsShowType x).getLast? = some "shadingEngine" := by
  intro sel
  induction sel with
  | nil =>
      intro ses h x hx
      injection h with h
      subst h
      exact absurd hx (List.not_mem_nil x)
  | cons s t ih =>
      intro ses h x hx
      simp only [seFilter] at h
      cases hty : lastOfShowType sc s with
      | error e =>
          rw [hty] at h
          simp [exBind] at h
      | ok ty =>
          rw [hty] at h
          simp only [exBind] at h
          cases hrest : seFilter sc t with
          | error e =>
              rw [hrest] at h
              simp [exBind] at h
          | ok rest =>
              rw [hrest] at h
              simp only [exBind] at h
              injection h with h
              by_cases hse : ty = "shadingEngine"
              · rw [if_pos hse] at h
                subst h
                rcases List.mem_cons.mp hx with h1 | h2
                · subst h1
                  rw [← hse]
                  exact lastOfShowType_ok sc x ty hty
                · exact ih rest hrest x h2
              · rw [if_neg hse] at h
                subst h
                exact ih rest hrest x hx

theorem meshExportLoop_keys (sc : Scene) (fuel : Nat)
    (hse : ∀ n l x, sc.listConnSE n = some l → x ∈ l →
        (sc.lsShowType x).getLast? = some "shadingEngine") :
    ∀ meshes dict dict', meshExportLoop sc fuel meshes dict = .ok dict' →
      (∀ k ∈ alKeys dict, (sc.lsShowType k).getLast? = some "shadingEngine") →
      ∀ k ∈ alKeys dict', (sc.lsShowType k).getLast? = some "shadingEngine" := by
  intro meshes
  induction meshes with
  | nil =>
      intro dict dict' h hk
      injection h with h
      subst h
      exact hk
  | cons each t ih =>
      intro dict dict' h hk
      simp only [meshExportLoop] at h
      rw [exBind_ok] at h
      obtain ⟨sg, hsg, h⟩ := h
      have hsgty : (sc.lsShowType sg).getLast? = some "shadingEngine" := by
        cases hl : sc.listConnSE each with
        | none =>
            rw [hl] at hsg
            simp at hsg
        | some l =>
            rw [hl] at hsg
            cases l with
            | nil => simp at hsg
            | cons z zt =>
                injection hsg with hsg
                subst hsg
                exact hse each (z :: zt) z hl (List.mem_cons_self z zt)
      by_cases hmem : sg ∈ alKeys dict
      · rw [if_pos hmem] at h
        exact ih dict dict' h hk
      · rw [if_neg hmem] at h
        rw [exBind_ok] at h
        obtain ⟨r, _, h⟩ := h
        apply ih _ _ h
        intro k hkm
        rcases alKeys_alSet_mem dict sg r k hkm with h1 | h2
        · exact h1 ▸ hsgty
        · exact hk k h2

theorem seExportLoop_keys (sc : Scene) (fuel : Nat) :
    ∀ ses dict dict', seExportLoop sc fuel ses dict = .ok dict' →
      (∀ x ∈ ses, (sc.lsShowType x).getLast? = some "shadingEngine") →
      (∀ k ∈ alKeys dict, (sc.lsShowType k).getLast? = some "shadingEngine") →
      ∀ k ∈ alKeys dict', (sc.lsShowType k).getLast? = some "shadingEngine" := by
  intro ses
  induction ses with
  | nil =>
      intro dict dict' h _ hk
      injection h with h
      subst h
      exact hk
  | cons each t ih =>
      intro dict dict' h hses hk
      simp only [seExportLoop] at h
      by_cases hmem : each ∈ alKeys dict
      · rw [if_pos hmem] at h
        exact ih dict dict' h
          (fun x hx => hses x (List.mem_cons_of_mem each hx)) hk
      · rw [if_neg hmem] at h
        rw [exBind_ok] at h
        obtain ⟨r, _, h⟩ := h
        apply ih _ _ h (fun x hx => hses x (List.mem_cons_of_mem each hx))
        intro k hkm
        rcases alKeys_alSet_mem dict each _ k hkm with h1 | h2
        · exact h1 ▸ hses each (List.mem_cons_self each t)
        · exact hk k h2

/-- C4: every document written by `export_shaders` is a JSON object
keyed by shading-group names (nodes the host types as
`shadingEngine`), and each value has exactly the ShaderNetwork shape:
a `base_material` object with `name` and `type`, a `nodes` mapping
whose values carry `node_type` and `Attributes`, a `connections`
sequence of two-element plug pairs, and a `meshes` sequence of
strings.  The hypothesis states that the host's
shading-engine-filtered connection query returns shading engines. -/
theorem C4_export_document_shape (sc : Scene) (fuel : Nat)
    (selection_type : String) (logs : List String)
    (dict : List (String × ShaderRecord))
    (hse : ∀ n l x, sc.listConnSE n = some l → x ∈ l →
        (sc.lsShowType x).getLast? = some "shadingEngine")
    (h : export_shaders sc fuel selection_type = .ok (logs, dict)) :
    isShaderDocJ (renderDoc dict) = true ∧
    ∀ k ∈ alKeys dict, (sc.lsShowType k).getLast? = some "shadingEngine" := by
  by_cases hm : selection_type = "mesh"
  · subst hm
    simp only [export_shaders] at h
    rw [if_pos trivial] at h
    rw [exBind_ok] at h
    obtain ⟨d, hd, heq⟩ := h
    injection heq with heq
    have hd2 : d = dict := congrArg Prod.snd heq
    subst hd2
    constructor
    · apply isShaderDocJ_render
      intro p hp
      rcases meshExportLoop_entries sc fuel _ [] d hd p hp with h1 | h2
      · exact absurd h1 (List.not_mem_nil p)
      · exact isRecordJ_render p.2 (build_pairs sc fuel p.1 p.2 h2)
    · exact meshExportLoop_keys sc fuel hse _ [] d hd
        (fun k hk => absurd hk (List.not_mem_nil k))
  · by_cases hs : selection_type = "shadingEngine"
    · subst hs
      simp only [export_shaders] at h
      rw [if_neg (by decide), if_pos trivial] at h
      rw [exBind_ok] at h
      obtain ⟨ses, hses, h⟩ := h
      rw [exBind_ok] at h
      obtain ⟨d, hd, heq⟩ := h
      injection heq with heq
      have hd2 : d = dict := congrArg Prod.snd heq
      subst hd2
      constructor
      · apply isShaderDocJ_render
        intro p hp
        rcases seExportLoop_entries sc fuel ses [] d hd p hp with h1 | h2
        · exact absurd h1 (List.not_mem_nil p)
        · obtain ⟨r, hr, hpr⟩ := h2
          apply isRecordJ_render
          rw [show p.2.connections = r.connections by rw [hpr]]
          exact build_pairs sc fuel p.1 r hr
      · exact seExportLoop_keys sc fuel ses [] d hd
          (seFilter_typed sc _ ses hses)
          (fun k hk => absurd hk (List.not_mem_nil k))
    · simp only [export_shaders] at h
      rw [if_neg hm, if_neg hs] at h
      injection h with h
      have hd2 : dict = [] := (congrArg Prod.snd h).symm
      subst hd2
      exact ⟨rfl, fun k hk => absurd hk (List.not_mem_nil k)⟩

/-- C4 witness: the theorem applied to the concrete scene `c6Scene`. -/
theorem C4_witness :
    ((∀ n l x, c6Scene.listConnSE n = some l → x ∈ l →
        (c6Scene.lsShowType x).getLast? = some "shadingEngine") ∧
     export_shaders c6Scene 3 "shadingEngine" =
      .ok (["Shaders Successfully Exported."],
           [("SG1", { base_material := { name := "m", matType := "blinn" },
                      nodes := [("m", { node_type := "blinn", attributes := [] })],
                      connections := [["m.outColor", "SG1.surfaceShader"]],
                      meshes := [] })])) ∧
    (isShaderDocJ (renderDoc
        [("SG1", { base_material := { name := "m", matType := "blinn" },
                   nodes := [("m", { node_type := "blinn", attributes := [] })],
                   connections := [["m.outColor", "SG1.surfaceShader"]],
                   meshes := [] })]) = true ∧
     ∀ k ∈ alKeys
        [("SG1", ({ base_material := { name := "m", matType := "blinn" },
                    nodes := [("m", { node_type := "blinn", attributes := [] })],
                    connections := [["m.outColor", "SG1.surfaceShader"]],
                    meshes := [] } : ShaderRecord))],
       (c6Scene.lsShowType k).getLast? = some "shadingEngine") :=
  ⟨⟨fun n l x hl => absurd hl (by simp [c6Scene]), rfl⟩,
   C4_export_document_shape c6Scene 3 "shadingEngine"
     ["Shaders Successfully Exported."] _
     (fun n l x hl => absurd hl (by simp [c6Scene])) rfl⟩

/-! ## Claim C2: connection plugs versus recorded node names -/

/-- The record `build_shader_dict` produces on `c2Scene` for `SG1`. -/
def c2Record : ShaderRecord :=
  { base_material := { name := "m", matType := "blinn" },
    nodes := [("m", { node_type := "blinn", attributes := [] })],
    connections := [["m.outColor", "SG1.surfaceShader"], ["time1.o", "m.c"]],
    meshes := ["meshShape1"] }

/-- C2 counterexample: on `c2Scene` the material's attribute `m.c` is
fed by the default node `time1`; `build_shader_dict` records the
connection pair `["time1.o", "m.c"]` but excludes `time1` from the
`nodes` mapping (line 275 skips default nodes), so the plug
`time1.o` has a node-name prefix that is neither a key of `nodes` nor
the shading-group name nor the base-material name. -/
theorem C2_counterexample :
    build_shader_dict c2Scene 3 "SG1" = .ok c2Record ∧
    "time1.o" ∈ (["time1.o", "m.c"] : List String) ∧
    nodePrefixOf "time1.o" = "time1" ∧
    "time1" ∉ alKeys [("m", ({ node_type := "blinn", attributes := [] } : NodeRec))] ∧
    ("time1" : String) ≠ "SG1" ∧ ("time1" : String) ≠ "m" :=
  ⟨rfl, by decide, rfl, by decide, by decide, by decide⟩

/-- The connection pair appended for a queried plug always contains
that plug (its first query echo). -/
theorem confirm_first_mem (sc : Scene) (x y : String) (rest : List String)
    (cd : List String)
    (h : confirm_attr_order sc (some (x :: y :: rest)) = .ok cd) : x ∈ cd := by
  simp only [confirm_attr_order] at h
  by_cases h1 : optTruthy (sc.srcPlugsOf x) = true
  · rw [if_guard_true _ h1] at h
    by_cases h2 : y ∈ (sc.srcPlugsOf x).getD []
    · rw [if_pos h2] at h
      injection h with h
      subst h
      simp
    · rw [if_neg h2] at h
      injection h with h
      subst h
      simp
  · rw [if_guard_false _ (bool_eq_false h1)] at h
    injection h with h
    subst h
    simp

/-- A connection pair is anchored when one of its plugs names the
shading group or a recorded node. -/
def plugAnchored (sg : String) (keys : List String) (c : List String) : Prop :=
  ∃ p ∈ c, nodePrefixOf p = sg ∨ nodePrefixOf p ∈ keys

theorem plugAnchored_mono (sg : String) (keys keys' : List String)
    (hsub : ∀ k ∈ keys, k ∈ keys') (c : List String)
    (h : plugAnchored sg keys c) : plugAnchored sg keys' c := by
  obtain ⟨p, hp, hor⟩ := h
  exact ⟨p, hp, hor.imp id (hsub _)⟩

theorem prefix_append_dot (each attr : String) (h : '.' ∉ each.data) :
    nodePrefixOf (each ++ "." ++ attr) = each := by
  apply nodePrefixOf_of_dot_split each attr.data h
  rw [String.data_append, String.data_append]
  simp

theorem alKeys_alSet_super {α : Type} :
    ∀ (m : List (String × α)) (key : String) (v : α) (k : String),
      k ∈ alKeys m → k ∈ alKeys (alSet m key v) := by
  intro m
  induction m with
  | nil => intro key v k hk; exact absurd hk (List.not_mem_nil k)
  | cons q t ih =>
      obtain ⟨k1, v1⟩ := q
      intro key v k hk
      simp only [alSet]
      by_cases h1 : k1 = key
      · rw [if_pos h1]
        rcases List.mem_cons.mp hk with h2 | h3
        · simp only [alKeys, List.map_cons]
          exact List.mem_cons.mpr (Or.inl (by rw [h2, h1]))
        · exact List.mem_cons_of_mem _ h3
      · rw [if_neg h1]
        rcases List.mem_cons.mp hk with h2 | h3
        · exact h2 ▸ List.mem_cons_self _ _
        · exact List.mem_cons_of_mem _ (ih key v k h3)

theorem alKeys_alSet_self {α : Type} :
    ∀ (m : List (String × α)) (key : String) (v : α),
      key ∈ alKeys (alSet m key v) := by
  intro m
  induction m with
  | nil => intro key v; exact List.mem_cons_self _ _
  | cons q t ih =>
      obtain ⟨k1, v1⟩ := q
      intro key v
      simp only [alSet]
      by_cases h1 : k1 = key
      · rw [if_pos h1]
        exact List.mem_cons_self _ _
      · rw [if_neg h1]
        exact List.mem_cons_of_mem _ (ih key v)

theorem alGet_some_mem {α : Type} (m : List (String × α)) (k : String)
    (v : α) (h : alGet m k = some v) : k ∈ alKeys m := by
  unfold alGet at h
  cases hf : m.find? (fun p => p.1 == k) with
  | none =>
      rw [hf] at h
      simp at h
  | some q =>
      have hq := List.find?_some hf
      have hqm := List.mem_of_find?_eq_some hf
      have hqk : q.1 = k := by simpa using hq
      exact List.mem_map.mpr ⟨q, hqm, hqk⟩

theorem alKeys_alSet_of_mem {α : Type} :
    ∀ (m : List (String × α)) (key : String) (v : α),
      key ∈ alKeys m → alKeys (alSet m key v) = alKeys m := by
  intro m
  induction m with
  | nil => intro key v hk; exact absurd hk (List.not_mem_nil key)
  | cons q t ih =>
      obtain ⟨k1, v1⟩ := q
      intro key v hk
      simp only [alSet]
      by_cases h1 : k1 = key
      · rw [if_pos h1]
        simp only [alKeys, List.map_cons]
        rw [h1]
      · rw [if_neg h1]
        simp only [alKeys, List.map_cons]
        have hk2 : key ∈ alKeys t := by
          rcases List.mem_cons.mp hk with h2 | h3
          · exact absurd h2.symm h1
          · exact h3
        have h4 := ih key v hk2
        simp only [alKeys] at h4
        rw [h4]

theorem storeAttr_keys (nodes : List (String × NodeRec)) (each attr : String)
    (v : PyVal) (nodes' : List (String × NodeRec))
    (h : storeAttr nodes each attr v = .ok nodes') :
    alKeys nodes' = alKeys nodes := by
  unfold storeAttr at h
  cases hg : alGet nodes each with
  | none =>
      rw [hg] at h
      simp at h
  | some nr =>
      rw [hg] at h
      injection h with h
      subst h
      exact alKeys_alSet_of_mem nodes each _ (alGet_some_mem nodes each nr hg)


theorem sgConnLoop_anchored (sc : Scene) (sg : String) (keys : List String)
    (hecho1 : ∀ p l, sc.connAllPairsPlug p = some l → l.get? 0 = some p) :
    ∀ src conns conns', sgConnLoop sc sg src conns = .ok conns' →
      (∀ c ∈ conns, plugAnchored sg keys c) →
      ∀ c ∈ conns', plugAnchored sg keys c := by
  intro src
  induction src with
  | nil =>
      intro conns conns' h hc
      injection h with h
      subst h
      exact hc
  | cons each t ih =>
      intro conns conns' h hc
      simp only [sgConnLoop] at h
      by_cases h1 : pyInStr "dagSetMembers" each = true
      · rw [if_guard_true _ h1] at h
        exact ih conns conns' h hc
      · rw [if_guard_false _ (bool_eq_false h1)] at h
        by_cases h2 : nodePrefixOf each = sg
        · rw [if_pos h2] at h
          rw [exBind_ok] at h
          obtain ⟨cd, hcd, h⟩ := h
          have hanch : plugAnchored sg keys cd := by
            cases hor : sc.connAllPairsPlug each with
            | none =>
                rw [hor] at hcd
                simp [confirm_attr_order] at hcd
            | some l =>
                rw [hor] at hcd
                cases l with
                | nil => simp [confirm_attr_order] at hcd
                | cons x l2 =>
                    cases l2 with
                    | nil => simp [confirm_attr_order] at hcd
                    | cons y rest2 =>
                        have hx : x = each := by
                          have h3 := hecho1 _ _ hor
                          simpa using h3
                        exact ⟨x, confirm_first_mem sc x y rest2 cd hcd,
                          Or.inl (hx ▸ h2)⟩
          apply ih _ _ h
          intro c hcm
          rcases List.mem_append.mp hcm with hcl | hcr
          · exact hc c hcl
          · exact (List.mem_singleton.mp hcr) ▸ hanch
        · rw [if_neg h2] at h
          exact ih conns conns' h hc

theorem attrScanLoop_anchored (sc : Scene) (each sg : String)
    (hecho2 : ∀ p l, sc.connSrcPairsPlug p = some l → l.get? 0 = some p)
    (heachdot : '.' ∉ each.data) :
    ∀ attrs skips nodes conns out,
      attrScanLoop sc each attrs skips nodes conns = .ok out →
      each ∈ alKeys nodes →
      (∀ c ∈ conns, plugAnchored sg (alKeys nodes) c) →
      alKeys out.2.1 = alKeys nodes ∧
      (∀ c ∈ out.2.2, plugAnchored sg (alKeys nodes) c) := by
  intro attrs
  induction attrs with
  | nil =>
      intro skips nodes conns out h hmem hc
      injection h with h
      subst h
      exact ⟨rfl, hc⟩
  | cons attr rest ih =>
      intro skips nodes conns out h hmem hc
      simp only [attrScanLoop] at h
      by_cases hex : sc.attrExists each attr = true
      · rw [if_guard_true _ hex] at h
        by_cases htr : optTruthy (sc.connSrcPairsPlug (each ++ "." ++ attr)) = true
        · rw [if_guard_true _ htr] at h
          rw [exBind_ok] at h
          obtain ⟨cd, hcd, h⟩ := h
          have hanch : plugAnchored sg (alKeys nodes) cd := by
            cases hor : sc.connSrcPairsPlug (each ++ "." ++ attr) with
            | none =>
                rw [hor] at hcd
                simp [confirm_attr_order] at hcd
            | some l =>
                rw [hor] at hcd
                cases l with
                | nil => simp [confirm_attr_order] at hcd
                | cons x l2 =>
                    cases l2 with
                    | nil => simp [confirm_attr_order] at hcd
                    | cons y rest2 =>
                        have hx : x = each ++ "." ++ attr := by
                          have h3 := hecho2 _ _ hor
                          simpa using h3
                        refine ⟨x, confirm_first_mem sc x y rest2 cd hcd,
                          Or.inr ?_⟩
                        rw [hx, prefix_append_dot each attr heachdot]
                        exact hmem
          apply ih _ _ _ _ h hmem
          intro c hcm
          by_cases hdup : cd ∈ conns
          · rw [if_pos hdup] at hcm
            exact hc c hcm
          · rw [if_neg hdup] at hcm
            rcases List.mem_append.mp hcm with h1 | h2
            · exact hc c h1
            · exact (List.mem_singleton.mp h2) ▸ hanch
        · rw [if_guard_false _ (bool_eq_false htr)] at h
          by_cases hskip : attr ∈ skips
          · rw [if_pos hskip] at h
            exact ih _ _ _ _ h hmem hc
          · rw [if_neg hskip] at h
            by_cases hft : sc.getAttrType (each ++ "." ++ attr) ∈
                ["float3", "float2", "double2", "double3"]
            · rw [if_pos hft] at h
              exact ih _ _ _ _ h hmem hc
            · rw [if_neg hft] at h
              split at h
              · split at h
                · exact ih _ _ _ _ h hmem hc
                · rw [exBind_ok] at h
                  obtain ⟨nodes1, hn1, h⟩ := h
                  have hkeq := storeAttr_keys _ _ _ _ _ hn1
                  have hres := ih _ _ _ _ h (by rw [hkeq]; exact hmem)
                    (by intro c hcm; rw [hkeq]; exact hc c hcm)
                  refine ⟨by rw [hres.1, hkeq], ?_⟩
                  intro c hcm
                  have h5 := hres.2 c hcm
                  rwa [hkeq] at h5
              · rw [exBind_ok] at h
                obtain ⟨nodes1, hn1, h⟩ := h
                have hkeq := storeAttr_keys _ _ _ _ _ hn1
                have hres := ih _ _ _ _ h (by rw [hkeq]; exact hmem)
                  (by intro c hcm; rw [hkeq]; exact hc c hcm)
                refine ⟨by rw [hres.1, hkeq], ?_⟩
                intro c hcm
                have h5 := hres.2 c hcm
                rwa [hkeq] at h5
      · rw [if_guard_false _ (bool_eq_false hex)] at h
        exact ih _ _ _ _ h hmem hc

theorem nodeScan_anchored (sc : Scene) (each sg : String)
    (hecho2 : ∀ p l, sc.connSrcPairsPlug p = some l → l.get? 0 = some p)
    (heachdot : '.' ∉ each.data)
    (nodes : List (String × NodeRec)) (conns : List (List String))
    (r : List (String × NodeRec) × List (List String))
    (h : nodeScan sc each nodes conns = .ok r)
    (hmem : each ∈ alKeys nodes)
    (hc : ∀ c ∈ conns, plugAnchored sg (alKeys nodes) c) :
    alKeys r.1 = alKeys nodes ∧
    (∀ c ∈ r.2, plugAnchored sg (alKeys nodes) c) := by
  unfold nodeScan at h
  cases hl : sc.listAttrVWOU each with
  | none =>
      rw [hl] at h
      simp at h
  | some attrs =>
      rw [hl] at h
      rw [exBind_ok] at h
      obtain ⟨r0, hr0, h⟩ := h
      injection h with h
      subst h
      exact attrScanLoop_anchored sc each sg hecho2 heachdot attrs [] nodes
        conns r0 hr0 hmem hc

theorem nodesLoop_anchored (sc : Scene) (sg : String)
    (hecho2 : ∀ p l, sc.connSrcPairsPlug p = some l → l.get? 0 = some p)
    (hT : ∀ n, (sc.lsShowType n).getLast? = some "transform" →
        sc.listRelativesShapes n ≠ some []) :
    ∀ graph nodes conns out, nodesLoop sc graph nodes conns = .ok out →
      (∀ n ∈ graph, '.' ∉ n.data) →
      (∀ c ∈ conns, plugAnchored sg (alKeys nodes) c) →
      (∀ k ∈ alKeys nodes, k ∈ alKeys out.1) ∧
      (∀ c ∈ out.2, plugAnchored sg (alKeys out.1) c) := by
  intro graph
  induction graph with
  | nil =>
      intro nodes conns out h _ hc
      injection h with h
      subst h
      exact ⟨fun k hk => hk, hc⟩
  | cons each t ih =>
      intro nodes conns out h hdots hc
      have hdott : ∀ n ∈ t, '.' ∉ n.data :=
        fun n hn => hdots n (List.mem_cons_of_mem each hn)
      simp only [nodesLoop] at h
      rw [exBind_ok] at h
      obtain ⟨ty, hty, h⟩ := h
      by_cases htrf : ty = "transform"
      · rw [if_pos htrf] at h
        split at h
        · simp at h
        · rename_i shp hshp
          by_cases hlen : shp.length ≠ 0
          · rw [if_pos hlen] at h
            exact ih nodes conns out h hdott hc
          · have hshp0 : shp = [] := by
              have hl0 : shp.length = 0 := by omega
              exact List.length_eq_zero.mp hl0
            have hT2 := hT each (by
              rw [← htrf]
              exact lastOfShowType_ok sc each ty hty)
            exact absurd (hshp0 ▸ hshp) hT2
      · rw [if_neg htrf] at h
        by_cases hdef : each ∈ sc.defaultNodes
        · rw [if_pos hdef] at h
          exact ih nodes conns out h hdott hc
        · rw [if_neg hdef] at h
          rw [exBind_ok] at h
          obtain ⟨r, hr, h⟩ := h
          have hsup : ∀ k ∈ alKeys nodes,
              k ∈ alKeys (alSet nodes each ⟨ty, []⟩) :=
            fun k hk => alKeys_alSet_super nodes each _ k hk
          have hmem1 : each ∈ alKeys (alSet nodes each ⟨ty, []⟩) :=
            alKeys_alSet_self nodes each _
          have hscan := nodeScan_anchored sc each sg hecho2
            (hdots each (List.mem_cons_self each t)) _ conns r hr hmem1
            (fun c hcm => plugAnchored_mono sg _ _ hsup c (hc c hcm))
          have hres := ih r.1 r.2 out h hdott (by
            intro c hcm
            have h5 := hscan.2 c hcm
            rwa [← hscan.1] at h5)
          refine ⟨?_, hres.2⟩
          intro k hk
          apply hres.1
          rw [hscan.1]
          exact hsup k hk

/-- C2 (amended): in every successful `build_shader_dict` record,
every connection pair contains at least one plug whose node-name
prefix is the shading-group name (pairs recorded from the shading
engine's own plugs) or a key of the record's `nodes` mapping (pairs
recorded while scanning a recorded node's attributes).  The opposite
plug of a pair may name a source node that is excluded from `nodes`
(a default scene node, or a mesh), as the counterexample shows; so
the original claim's guarantee holds for one side of each pair only.
Hypotheses: the host echoes the queried plug first in
connections-mode query results, node names contain no dot, and no
scanned transform has an empty (non-`None`) shape list. -/
theorem C2_connection_prefixes (sc : Scene) (fuel : Nat) (sg : String)
    (r : ShaderRecord)
    (hecho1 : ∀ p l, sc.connAllPairsPlug p = some l → l.get? 0 = some p)
    (hecho2 : ∀ p l, sc.connSrcPairsPlug p = some l → l.get? 0 = some p)
    (hT : ∀ n, (sc.lsShowType n).getLast? = some "transform" →
        sc.listRelativesShapes n ≠ some [])
    (hdots : ∀ g, get_src_nodes sc fuel sg [] = .ok g → ∀ n ∈ g, '.' ∉ n.data)
    (h : build_shader_dict sc fuel sg = .ok r) :
    ∀ c ∈ r.connections, ∃ p ∈ c,
      nodePrefixOf p = sg ∨ nodePrefixOf p ∈ alKeys r.nodes := by
  simp only [build_shader_dict] at h
  rw [exBind_ok] at h
  obtain ⟨m, _, h⟩ := h
  rw [exBind_ok] at h
  obtain ⟨mt, _, h⟩ := h
  rw [exBind_ok] at h
  obtain ⟨meshes, _, h⟩ := h
  rw [exBind_ok] at h
  obtain ⟨conns0, hc0, h⟩ := h
  rw [exBind_ok] at h
  obtain ⟨graph, hgr, h⟩ := h
  rw [exBind_ok] at h
  obtain ⟨nc, hnc, h⟩ := h
  injection h with h
  subst h
  have hanch0 : ∀ c ∈ conns0, plugAnchored sg (alKeys ([] : List (String × NodeRec))) c := by
    cases hsp : sc.connSrcPairs sg with
    | none =>
        rw [hsp] at hc0
        simp at hc0
    | some src =>
        rw [hsp] at hc0
        exact sgConnLoop_anchored sc sg _ hecho1 src [] conns0 hc0
          (fun c hcm => absurd hcm (List.not_mem_nil c))
  have hres := nodesLoop_anchored sc sg hecho2 hT graph [] conns0 nc hnc
    (hdots graph hgr) hanch0
  exact fun c hcm => hres.2 c hcm

/-- C2 witness: the amended theorem applied to the concrete scene
`c2Scene` (where the counterexample pair `["time1.o", "m.c"]` is
anchored by its second plug `m.c`). -/
theorem C2_witness :
    ((∀ p l, c2Scene.connAllPairsPlug p = some l → l.get? 0 = some p) ∧
     (∀ p l, c2Scene.connSrcPairsPlug p = some l → l.get? 0 = some p) ∧
     (∀ n, (c2Scene.lsShowType n).getLast? = some "transform" →
        c2Scene.listRelativesShapes n ≠ some []) ∧
     (∀ g, get_src_nodes c2Scene 3 "SG1" [] = .ok g →
        ∀ n ∈ g, '.' ∉ n.data) ∧
     build_shader_dict c2Scene 3 "SG1" = .ok c2Record) ∧
    (∀ c ∈ c2Record.connections, ∃ p ∈ c,
       nodePrefixOf p = "SG1" ∨ nodePrefixOf p ∈ alKeys c2Record.nodes) :=
  ⟨⟨fun p l hpl => by
      by_cases hp : p = "SG1.surfaceShader"
      · subst hp
        simp only [c2Scene] at hpl
        rw [if_pos trivial] at hpl
        injection hpl with hpl
        rw [← hpl]
        rfl
      · simp only [c2Scene] at hpl
        rw [if_neg hp] at hpl
        exact absurd hpl (by simp),
    fun p l hpl => by
      by_cases hp : p = "m.c"
      · subst hp
        simp only [c2Scene] at hpl
        rw [if_pos trivial] at hpl
        injection hpl with hpl
        rw [← hpl]
        rfl
      · simp only [c2Scene] at hpl
        rw [if_neg hp] at hpl
        exact absurd hpl (by simp),
    fun n _ => by simp [c2Scene],
    fun g hg => by
      rw [show get_src_nodes c2Scene 3 "SG1" [] = .ok ["m", "time1"] from rfl]
        at hg
      injection hg with hg
      subst hg
      decide,
    rfl⟩,
   C2_connection_prefixes c2Scene 3 "SG1" c2Record
     (fun p l hpl => by
       by_cases hp : p = "SG1.surfaceShader"
       · subst hp
         simp only [c2Scene] at hpl
         rw [if_pos trivial] at hpl
         injection hpl with hpl
         rw [← hpl]
         rfl
       · simp only [c2Scene] at hpl
         rw [if_neg hp] at hpl
         exact absurd hpl (by simp))
     (fun p l hpl => by
       by_cases hp : p = "m.c"
       · subst hp
         simp only [c2Scene] at hpl
         rw [if_pos trivial] at hpl
         injection hpl with hpl
         rw [← hpl]
         rfl
       · simp only [c2Scene] at hpl
         rw [if_neg hp] at hpl
         exact absurd hpl (by simp))
     (fun n _ => by simp [c2Scene])
     (fun g hg => by
       rw [show get_src_nodes c2Scene 3 "SG1" [] = .ok ["m", "time1"] from rfl]
         at hg
       injection hg with hg
       subst hg
       decide)
     rfl⟩

/-! ## import_shaders (src/core.py lines 96-195)

The scene-modifying host calls made by `import_shaders` are recorded as
an explicit operation trace; the naming host calls (`cmds.shadingNode`,
`cmds.sets`, `cmds.createNode`) both modify the scene and return the
actual name given to the created object, so they appear as oracle
fields of `ImportHost` as well as in the trace. -/

/-- One scene-modifying host call made by `import_shaders`. -/
inductive SceneOp where
  /-- `cmds.shadingNode(type, name=..., asShader=True)` (line 141) -/
  | shadingNode (nodeType requested : String)
  /-- `cmds.sets(name=..., renderable=True, noSurfaceShader=True, empty=True)` (line 144) -/
  | createSet (requested : String)
  /-- `cmds.delete(name)` (line 129) -/
  | deleteNode (nm : String)
  /-- `cmds.createNode(type, name=...)` (line 172) -/
  | createNode (nodeType requested : String)
  /-- `cmds.setAttr(plug, val)` (line 338) -/
  | setAttrPlain (plug : String) (val : PyVal)
  /-- `cmds.setAttr(plug, val, type=attr_type)` (line 340) -/
  | setAttrTyped (plug : String) (val : PyVal) (attrType : String)
  /-- `cmds.connectAttr(src, dst)` (line 187) -/
  | connectAttr (src dst : String)
  /-- `cmds.sets(mesh, edit=True, forceElement=set)` (line 192) -/
  | assignToSet (mesh setName : String)

/-- The import-side host: the scene oracles plus the actual names the
host assigns to the objects `import_shaders` asks it to create. -/
structure ImportHost where
  sc : Scene
  /-- name returned by `cmds.shadingNode(nodeType, name=requested, asShader=True)` -/
  shadingNodeName : String → String → String
  /-- name returned by `cmds.sets(name=requested, ...)` -/
  setsName : String → String
  /-- name returned by `cmds.createNode(nodeType, name=requested)` -/
  createNodeName : String → String → String

/-- One entry of the imported JSON document
(`shader_network` in src/core.py): the fields `import_shaders` reads. -/
structure NetworkJ where
  base_name : String
  base_type : String
  nodes : List (String × NodeRec)
  connections : List (List String)
  meshes : List String

/-- `set_attr` from src/core.py (lines 327-340), as the trace of
`cmds.setAttr` calls it performs. -/
def set_attr (sc : Scene) (full_name : String) (val : PyVal) : List SceneOp :=
  let type_filter := ["float", "int", "double", "bool", "enum", "short", "long", "list"]
  let attr_type := sc.getAttrType full_name
  if pyValEq val (sc.getAttrVal full_name) then
    []
  else if attr_type ∈ type_filter then
    [SceneOp.setAttrPlain full_name val]
  else
    [SceneOp.setAttrTyped full_name val attr_type]

/-- The `"skip"` branch (lines 113-119): collect the shading engines
that already exist, then delete those entries from the dict. -/
def skipFilter (sc : Scene) (d : List (String × NetworkJ)) :
    List (String × NetworkJ) :=
  let skip_list := (alKeys d).filter (fun se => sc.objExists se)
  skip_list.foldl (fun acc each => alErase acc each) d

/-- The inner deletion loop of the `"replace"` branch (lines 124-129):
default nodes are passed over, other existing nodes are deleted. -/
def replaceDeletes (sc : Scene) : List String → List SceneOp
  | [] => []
  | each :: t =>
      if each ∈ sc.defaultNodes then
        replaceDeletes sc t
      else if sc.objExists each then
        SceneOp.deleteNode each :: replaceDeletes sc t
      else
        replaceDeletes sc t

/-- The `"replace"` branch (lines 120-129).  The
`get_src_nodes(shading_engine)` call at line 123 omits `node_list`, so
it receives — and extends — the module-level shared default list,
threaded here as the second component of the result (see C9). -/
def replaceLoop (sc : Scene) (fuel : Nat) :
    List (String × NetworkJ) → List String →
    Except String (List SceneOp × List String)
  | [], dflt => .ok ([], dflt)
  | (se, _) :: t, dflt =>
      if sc.objExists se then
        exBind (get_src_nodes sc fuel se dflt) fun nodes =>
        exBind (replaceLoop sc fuel t nodes) fun r =>
        .ok (replaceDeletes sc nodes ++ r.1, r.2)
      else
        replaceLoop sc fuel t dflt

/-- The base-material rename block (lines 159-167): when the host gave
the material a new name, rewrite the connections (the `rewritePass` of
lines 160-165) and move the node entry to the new key; the lookup
`shader_network["nodes"][base_name]` raises `KeyError` when absent. -/
def renameBase (base_name material_name : String)
    (nodes : List (String × NodeRec)) (conns : List (List String)) :
    Except String (List (String × NodeRec) × List (List String)) :=
  if base_name ≠ material_name then
    let conns2 := rewritePass base_name material_name conns
    match alGet nodes base_name with
    | none => .error "KeyError: base material name not in nodes"
    | some v => .ok (alErase (alSet nodes material_name v) base_name, conns2)
  else
    .ok (nodes, conns)

/-- The attribute-setting loop of lines 183-184. -/
def attrSetOps (sc : Scene) (node_name : String)
    (attrs : List (String × PyVal)) : List SceneOp :=
  attrs.foldl (fun acc kv => acc ++ set_attr sc (node_name ++ "." ++ kv.1) kv.2) []

/-- The node-creation loop (lines 170-184): every node other than the
material is created; when the host renames it, the connections are
rewritten (the `rewritePass` of lines 174-179) and the loop variable is
rebound (line 181) so the attribute loop targets the new name. -/
def nodeCreateLoop (h : ImportHost) (material_name : String) :
    List (String × NodeRec) → List (List String) →
    List SceneOp × List (List String)
  | [], conns => ([], conns)
  | (node_name, settings) :: t, conns =>
      if node_name ≠ material_name then
        let new_node := h.createNodeName settings.node_type node_name
        let conns2 :=
          if node_name ≠ new_node then rewritePass node_name new_node conns
          else conns
        let final_name := if node_name ≠ new_node then new_node else node_name
        let r := nodeCreateLoop h material_name t conns2
        (SceneOp.createNode settings.node_type node_name ::
           (attrSetOps h.sc final_name settings.attributes ++ r.1), r.2)
      else
        let r := nodeCreateLoop h material_name t conns
        (attrSetOps h.sc node_name settings.attributes ++ r.1, r.2)

/-- The connection loop (lines 186-187): `each[0]` / `each[1]` raise
`IndexError` on a pair with fewer than two entries. -/
def connectLoop : List (List String) → Except String (List SceneOp)
  | [] => .ok []
  | each :: t =>
      match each with
      | a :: b :: _ =>
          exBind (connectLoop t) fun r => .ok (SceneOp.connectAttr a b :: r)
      | _ => .error "IndexError: list index out of range"

/-- The mesh-binding block (lines 189-194). -/
def meshAssignOps (sc : Scene) (shader_set : String)
    (meshes : List String) : List SceneOp :=
  if meshes.length > 0 then
    meshes.foldl
      (fun acc each =>
        if sc.objExists each then acc ++ [SceneOp.assignToSet each shader_set]
        else acc) []
  else
    []

/-- One iteration of the `for shading_engine, shader_network in
shaders_dict.items()` loop (lines 139-194): create the material and
the shading set, rewrite connections for every host-side rename
(shading group, base material, other nodes), set attributes, connect
the plugs, and bind the meshes. -/
def createNetwork (h : ImportHost) (shading_engine : String) (nw : NetworkJ) :
    Except String (List SceneOp) :=
  let material_name := h.shadingNodeName nw.base_type nw.base_name
  let shader_set := h.setsName shading_engine
  let ops0 := [SceneOp.shadingNode nw.base_type nw.base_name,
               SceneOp.createSet shading_engine]
  let conns1 :=
    if shading_engine ≠ shader_set then
      sgRewritePass shading_engine shader_set nw.connections
    else
      nw.connections
  exBind (renameBase nw.base_name material_name nw.nodes conns1) fun p =>
  let r := nodeCreateLoop h material_name p.1 p.2
  exBind (connectLoop r.2) fun connOps =>
  .ok (ops0 ++ r.1 ++ connOps ++ meshAssignOps h.sc shader_set nw.meshes)

/-- The network-creation loop over the (possibly filtered) dict. -/
def networksLoop (h : ImportHost) :
    List (String × NetworkJ) → Except String (List SceneOp)
  | [] => .ok []
  | (se, nw) :: t =>
      exBind (createNetwork h se nw) fun ops =>
      exBind (networksLoop h t) fun rest =>
      .ok (ops ++ rest)

/-- `import_shaders` from src/core.py (lines 96-195).  `json_data` is
the parsed JSON document (the file reading of lines 108-110 is outside
the embedding), `dflt` the module-level shared default `node_list` of
`get_src_nodes`.  The result is the operation trace, the log messages,
and the final shared default list; the `"cancel"` branch (lines
132-134) logs and returns before the network-creation loop. -/
def import_shaders (h : ImportHost) (fuel : Nat)
    (json_data : List (String × NetworkJ)) (shader_conflicts : String)
    (dflt : List String) :
    Except String (List SceneOp × List String × List String) :=
  if shader_conflicts = "skip" then
    exBind (networksLoop h (skipFilter h.sc json_data)) fun ops =>
    .ok (ops, ["Shaders successfully imported"], dflt)
  else if shader_conflicts = "replace" then
    exBind (replaceLoop h.sc fuel json_data dflt) fun r =>
    exBind (networksLoop h json_data) fun ops =>
    .ok (r.1 ++ ops, ["Shaders successfully imported"], r.2)
  else if shader_conflicts = "rename" then
    exBind (networksLoop h json_data) fun ops =>
    .ok (ops, ["Shaders successfully imported"], dflt)
  else if shader_conflicts = "cancel" then
    .ok ([], ["Shader IO Import cancelled"], dflt)
  else
    exBind (networksLoop h json_data) fun ops =>
    .ok (ops, ["No argument set for parameter: \"shader_conflicts\"",
               "Shaders successfully imported"], dflt)

/-- C10: called with `shader_conflicts = "cancel"`, `import_shaders`
logs `"Shader IO Import cancelled"` and returns immediately with an
empty operation trace — no node is created, deleted or connected, no
attribute is set, and the shared default list is untouched — for every
host, fuel, document and default list. -/
theorem C10_cancel_no_ops (h : ImportHost) (fuel : Nat)
    (json_data : List (String × NetworkJ)) (dflt : List String) :
    import_shaders h fuel json_data "cancel" dflt =
      .ok ([], ["Shader IO Import cancelled"], dflt) := rfl
